import Mathlib

/-!
# Verification of the API integration core

Shallow embedding of the redaction, logging, token-manager, request-pipeline
and subscription-service code of this repository, together with theorems
checking the specification's claims against it.

Conventions of the embedding:
* JavaScript objects/JSON values are modelled by the inductive `Json`;
  JavaScript's `Object.entries` view of arrays (index keys `"0","1",...`)
  and of strings (per-character entries) is modelled explicitly where the
  source relies on it.
* A body string is modelled by its parse outcome (`BodyRep`): either the
  `Json` value it parses to, or the raw non-JSON string.  `JSON.parse` /
  `JSON.stringify` round-tripping is implicit in this representation.
* Timestamps are `Nat` milliseconds; machine integers do not overflow in
  the JS number range relevant here.
* Asynchronous code is modelled by explicit oracles (fetch outcomes per
  attempt) and, for the token manager, a small step machine over the shared
  mutable state, reflecting the single-threaded event-loop semantics.
-/

/-- JSON / JavaScript value tree (model of the values flowing through
`maskSecrets.ts`). -/
inductive Json where
  | str : String → Json
  | num : Int → Json
  | bool : Bool → Json
  | null : Json
  | arr : List Json → Json
  | obj : List (String × Json) → Json
deriving Repr

/-- The fixed redaction marker (`maskSecrets.ts` line 6). -/
def REDACTED : String := "***REDACTED***"

/-- Headers that are always redacted (`maskSecrets.ts` lines 9-15). -/
def SENSITIVE_HEADERS : List String :=
  ["authorization", "x-api-key", "api-key", "x-client-secret", "client-secret"]

/-- Body fields that are redacted (`maskSecrets.ts` lines 18-30). -/
def SENSITIVE_FIELDS : List String :=
  ["client_secret", "clientSecret", "access_token", "accessToken",
   "refresh_token", "refreshToken", "password", "secret", "token",
   "api_key", "apiKey"]

/-- Character class `[A-Za-z0-9\-_]` used by both heuristics in
`looksLikeSecret` (`maskSecrets.ts` lines 124-137). -/
def isTokenChar (c : Char) : Bool :=
  (c ≥ 'A' && c ≤ 'Z') || (c ≥ 'a' && c ≤ 'z') || (c ≥ '0' && c ≤ '9') ||
  c = '-' || c = '_'

/-- Split a character list on `'.'` (the semantics of `splitOn "."`). -/
def splitDot : List Char → List (List Char)
  | [] => [[]]
  | c :: rest =>
    match splitDot rest with
    | seg :: segs => if c = '.' then [] :: seg :: segs else (c :: seg) :: segs
    | [] => [[c]]

/-- A JWT leading segment: `eyJ[A-Za-z0-9\-_]+`. -/
def jwtHeadSeg : List Char → Bool
  | 'e' :: 'y' :: 'J' :: rest => rest.length ≥ 1 && rest.all isTokenChar
  | _ => false

/-- A JWT trailing segment: `[A-Za-z0-9\-_]+`. -/
def jwtTailSeg (cs : List Char) : Bool :=
  cs.length ≥ 1 && cs.all isTokenChar

/-- Model of the JWT regex
`^eyJ[A-Za-z0-9\-_]+\.eyJ[A-Za-z0-9\-_]+\.[A-Za-z0-9\-_]+$`: the character
class excludes `.`, so the regex matches exactly when splitting on `.`
yields three segments of the required shapes. -/
def isJwtShape (s : String) : Bool :=
  match splitDot s.toList with
  | [a, b, c] => jwtHeadSeg a && jwtHeadSeg b && jwtTailSeg c
  | _ => false

/-- `looksLikeSecret` (`maskSecrets.ts` lines 124-137): JWT shape, or a bare
token-character string longer than 40 characters. -/
def looksLikeSecret (s : String) : Bool :=
  isJwtShape s || (s.length > 40 && s.toList.all isTokenChar)

/-- JavaScript `toLowerCase` on one character (ASCII range; header names
and the keys compared here are ASCII). -/
def lowerChar (c : Char) : Char :=
  if c.toNat ≥ 65 && c.toNat ≤ 90 then Char.ofNat (c.toNat + 32) else c

/-- JavaScript `toLowerCase` on a string (ASCII model). -/
def strLower (s : String) : String := String.mk (s.toList.map lowerChar)

/-- The redaction test applied to a key by `maskObject`
(`maskSecrets.ts` line 44): case-insensitive membership in
`SENSITIVE_HEADERS`, or exact-case membership in `SENSITIVE_FIELDS`. -/
def sensitiveKey (k : String) : Bool :=
  SENSITIVE_HEADERS.contains (strLower k) || SENSITIVE_FIELDS.contains k

/-- `maskHeaders` on a plain record (`maskSecrets.ts` lines 73-78): each
value whose key is case-insensitively in `SENSITIVE_HEADERS` is replaced
wholesale; key case is preserved.  (The `Headers`-instance branch iterates
identically.) -/
def maskHeaders (hs : List (String × String)) : List (String × String) :=
  hs.map fun kv =>
    (kv.1, if SENSITIVE_HEADERS.contains (strLower kv.1) then REDACTED else kv.2)

mutual
/-- One entry of the `maskObject` walk (`maskSecrets.ts` lines 40-55): a
sensitive key is redacted wholesale; an object or array value is walked
recursively (JavaScript's `Object.entries` turns an array into index-keyed
entries, so the recursion returns an object); a string value that looks
like a secret is redacted; anything else is kept. -/
def maskEntry (k : String) (v : Json) : Json :=
  if sensitiveKey k then .str REDACTED
  else
    match v with
    | .obj kvs => .obj (maskList kvs)
    | .arr l => .obj (maskArr 0 l)
    | .str s => if looksLikeSecret s then .str REDACTED else .str s
    | v => v

/-- The `for (const [key, value] of Object.entries(obj))` loop of
`maskObject` over an object's entries. -/
def maskList : List (String × Json) → List (String × Json)
  | [] => []
  | (k, v) :: rest => (k, maskEntry k v) :: maskList rest

/-- The same loop over an array value: `Object.entries` yields index keys
`"0", "1", ...`, each processed like any other entry. -/
def maskArr (i : Nat) : List Json → List (String × Json)
  | [] => []
  | v :: rest => (toString i, maskEntry (toString i) v) :: maskArr (i + 1) rest
end

/-- `Object.entries` of a JavaScript string: one entry per character, keyed
by its index. -/
def strEntries (s : String) : List (String × Json) :=
  s.toList.enum.map fun ic => (toString ic.1, Json.str (String.singleton ic.2))

/-- `maskObject` (`maskSecrets.ts` lines 35-58).  Falsy inputs (`null`,
`0`, `false`, `""`) return `{}`; `Object.entries` of a non-object primitive
is empty (or per-character for a string); otherwise the entries are walked.
The result is always an object. -/
def maskObject : Json → Json
  | .obj kvs => .obj (maskList kvs)
  | .arr l => .obj (maskArr 0 l)
  | .str s => .obj (maskList (strEntries s))
  | _ => .obj []

/-- `truncateString` (`maskSecrets.ts` lines 167-170). -/
def truncateString (s : String) (maxLength : Nat) : String :=
  if s.length ≤ maxLength then s else (s.take maxLength) ++ "... [truncated]"

/-! ## Regex-based string redaction (`maskStringSecrets`)

The five `String.replace(/…/gi, …)` calls are modelled by a left-to-right
scanner: at each position, try the pattern; on a match, emit the fixed
replacement and continue after the match; otherwise keep the character.
This is exactly the semantics of a global regex replace. -/

/-- JavaScript `\s` (the whitespace characters occurring in practice). -/
def isWs (c : Char) : Bool := c = ' ' || c = '\t' || c = '\n' || c = '\r'

/-- Character class `[A-Za-z0-9\-_\.]` of the Bearer-token pattern. -/
def isBearerTokChar (c : Char) : Bool := isTokenChar c || c = '.'

/-- Character class `[A-Za-z0-9\+\/=]` of the Basic-auth pattern. -/
def isBasicTokChar (c : Char) : Bool :=
  (c ≥ 'A' && c ≤ 'Z') || (c ≥ 'a' && c ≤ 'z') || (c ≥ '0' && c ≤ '9') ||
  c = '+' || c = '/' || c = '='

/-- Character class `[^&\s]` of the query-string patterns. -/
def isKvValChar (c : Char) : Bool := !(c = '&' || isWs c)

/-- Case-insensitive literal prefix test returning the remainder. -/
def ciPrefRem : List Char → List Char → Option (List Char)
  | [], cs => some cs
  | _ :: _, [] => none
  | l :: ls, c :: cs => if lowerChar c = lowerChar l then ciPrefRem ls cs else none

/-- One `String.replace(/…/gi, rep)` pattern of `maskStringSecrets`: a
case-insensitive literal, optionally followed by required whitespace
(`\s+`), then a greedy nonempty run of a value class, replaced by `rep`. -/
structure ScanPat where
  lit : List Char
  needsWs : Bool
  val : Char → Bool
  rep : List Char

/-- Head match of a `ScanPat`, returning the match length minus one: the
case-insensitive literal, then (if `needsWs`) a maximal nonempty
whitespace run, then a maximal nonempty run of the value class. -/
def patMatch (p : ScanPat) (cs : List Char) : Option Nat :=
  match ciPrefRem p.lit cs with
  | none => none
  | some rest1 =>
    if p.needsWs then
      let w := (rest1.takeWhile isWs).length
      if w = 0 then none
      else
        let t := ((rest1.drop w).takeWhile p.val).length
        if t = 0 then none else some (p.lit.length + w + t - 1)
    else
      let t := (rest1.takeWhile p.val).length
      if t = 0 then none else some (p.lit.length + t - 1)

/-- Left-to-right global replace: `matchAt cs = some k` means a match of
length `k + 1` starts at `cs`. -/
def replaceScan (matchAt : List Char → Option Nat) (rep : List Char) :
    List Char → List Char
  | [] => []
  | c :: rest =>
    match matchAt (c :: rest) with
    | some k => rep ++ replaceScan matchAt rep (rest.drop k)
    | none => c :: replaceScan matchAt rep rest
termination_by cs => cs.length
decreasing_by
  · simp only [List.length_drop, List.length_cons]; omega
  · simp only [List.length_cons]; omega

/-- Pattern `/Bearer\s+[A-Za-z0-9\-_\.]+/gi → 'Bearer ***REDACTED***'`. -/
def bearerPat : ScanPat :=
  { lit := "bearer".toList, needsWs := true, val := isBearerTokChar,
    rep := "Bearer ***REDACTED***".toList }

/-- Pattern `/Basic\s+[A-Za-z0-9\+\/=]+/gi → 'Basic ***REDACTED***'`. -/
def basicPat : ScanPat :=
  { lit := "basic".toList, needsWs := true, val := isBasicTokChar,
    rep := "Basic ***REDACTED***".toList }

/-- Pattern `/client_secret=[^&\s]+/gi → 'client_secret=***REDACTED***'`. -/
def csecretPat : ScanPat :=
  { lit := "client_secret=".toList, needsWs := false, val := isKvValChar,
    rep := "client_secret=***REDACTED***".toList }

/-- Pattern `/access_token=[^&\s]+/gi → 'access_token=***REDACTED***'`. -/
def atokenPat : ScanPat :=
  { lit := "access_token=".toList, needsWs := false, val := isKvValChar,
    rep := "access_token=***REDACTED***".toList }

/-- Pattern `/api_key=[^&\s]+/gi → 'api_key=***REDACTED***'`. -/
def akeyPat : ScanPat :=
  { lit := "api_key=".toList, needsWs := false, val := isKvValChar,
    rep := "api_key=***REDACTED***".toList }

/-- One `String.replace(/…/gi, rep)` pass. -/
def scanPass (p : ScanPat) (s : String) : String :=
  String.mk (replaceScan (patMatch p) p.rep s.toList)

/-- `maskStringSecrets` (`maskSecrets.ts` lines 102-119): the five global
replaces, in source order. -/
def maskStringSecrets (s : String) : String :=
  scanPass akeyPat (scanPass atokenPat (scanPass csecretPat
    (scanPass basicPat (scanPass bearerPat s))))

-- ===== char foundations =====
theorem char_toNat_inj {a b : Char} (h : a.toNat = b.toNat) : a = b :=
  Char.eq_of_val_eq (UInt32.ext h)

theorem char_eq_iff (c d : Char) : c = d ↔ c.toNat = d.toNat :=
  ⟨fun h => h ▸ rfl, char_toNat_inj⟩

theorem char_le_iff (c d : Char) : c ≤ d ↔ c.toNat ≤ d.toNat := ge_iff_le

theorem bool_eq_of_iff {x y : Bool} (h : x = true ↔ y = true) : x = y := by
  cases x <;> cases y <;> simp_all

theorem lowerChar_toNat (c : Char) : (lowerChar c).toNat =
    if 65 ≤ c.toNat ∧ c.toNat ≤ 90 then c.toNat + 32 else c.toNat := by
  by_cases h : 65 ≤ c.toNat ∧ c.toNat ≤ 90
  · have hb : (c.toNat ≥ 65 && c.toNat ≤ 90) = true := by
      simp [h.1, h.2]
    rw [lowerChar, if_pos hb, if_pos h]
    have hlt : c.toNat + 32 < 55296 := by omega
    have hv : (c.toNat + 32).isValidChar := Or.inl hlt
    rw [Char.ofNat, dif_pos hv]
    simp [Char.toNat, Char.ofNatAux, UInt32.toNat, UInt32.ofNatCore]
  · have hb : (c.toNat ≥ 65 && c.toNat ≤ 90) = false := by
      rcases Nat.lt_or_ge c.toNat 65 with h1 | h1
      · simp; omega
      · simp; intro _; omega
    rw [lowerChar, if_neg (by simp [hb]), if_neg h]

theorem isWs_iff (c : Char) : isWs c = true ↔
    c.toNat = 32 ∨ c.toNat = 9 ∨ c.toNat = 10 ∨ c.toNat = 13 := by
  simp [isWs, char_eq_iff]; tauto

theorem isTokenChar_iff (c : Char) : isTokenChar c = true ↔
    (65 ≤ c.toNat ∧ c.toNat ≤ 90) ∨ (97 ≤ c.toNat ∧ c.toNat ≤ 122) ∨
    (48 ≤ c.toNat ∧ c.toNat ≤ 57) ∨ c.toNat = 45 ∨ c.toNat = 95 := by
  simp [isTokenChar, char_eq_iff, char_le_iff]; tauto

theorem isBearerTokChar_iff (c : Char) : isBearerTokChar c = true ↔
    (65 ≤ c.toNat ∧ c.toNat ≤ 90) ∨ (97 ≤ c.toNat ∧ c.toNat ≤ 122) ∨
    (48 ≤ c.toNat ∧ c.toNat ≤ 57) ∨ c.toNat = 45 ∨ c.toNat = 95 ∨
    c.toNat = 46 := by
  simp [isBearerTokChar, isTokenChar_iff, char_eq_iff]; tauto

theorem isBasicTokChar_iff (c : Char) : isBasicTokChar c = true ↔
    (65 ≤ c.toNat ∧ c.toNat ≤ 90) ∨ (97 ≤ c.toNat ∧ c.toNat ≤ 122) ∨
    (48 ≤ c.toNat ∧ c.toNat ≤ 57) ∨ c.toNat = 43 ∨ c.toNat = 47 ∨
    c.toNat = 61 := by
  simp [isBasicTokChar, char_eq_iff, char_le_iff]; tauto

theorem isKvValChar_iff (c : Char) : isKvValChar c = true ↔
    ¬(c.toNat = 38 ∨ c.toNat = 32 ∨ c.toNat = 9 ∨ c.toNat = 10 ∨
      c.toNat = 13) := by
  simp [isKvValChar, isWs, char_eq_iff]; tauto

theorem isWs_ci {a b : Char} (h : lowerChar a = lowerChar b) :
    isWs a = isWs b := by
  have hn := congrArg Char.toNat h
  rw [lowerChar_toNat, lowerChar_toNat] at hn
  exact bool_eq_of_iff (by rw [isWs_iff, isWs_iff]; split_ifs at hn <;> omega)

theorem isBearerTokChar_ci {a b : Char} (h : lowerChar a = lowerChar b) :
    isBearerTokChar a = isBearerTokChar b := by
  have hn := congrArg Char.toNat h
  rw [lowerChar_toNat, lowerChar_toNat] at hn
  exact bool_eq_of_iff
    (by rw [isBearerTokChar_iff, isBearerTokChar_iff]; split_ifs at hn <;> omega)

theorem isBasicTokChar_ci {a b : Char} (h : lowerChar a = lowerChar b) :
    isBasicTokChar a = isBasicTokChar b := by
  have hn := congrArg Char.toNat h
  rw [lowerChar_toNat, lowerChar_toNat] at hn
  exact bool_eq_of_iff
    (by rw [isBasicTokChar_iff, isBasicTokChar_iff]; split_ifs at hn <;> omega)

theorem isKvValChar_ci {a b : Char} (h : lowerChar a = lowerChar b) :
    isKvValChar a = isKvValChar b := by
  have hn := congrArg Char.toNat h
  rw [lowerChar_toNat, lowerChar_toNat] at hn
  exact bool_eq_of_iff
    (by rw [isKvValChar_iff, isKvValChar_iff]; split_ifs at hn <;> omega)

theorem ws_not_bearerTok {c : Char} (h : isWs c = true) :
    isBearerTokChar c = false := by
  rw [Bool.eq_false_iff]; intro hb
  rw [isWs_iff] at h; rw [isBearerTokChar_iff] at hb; omega

theorem ws_not_basicTok {c : Char} (h : isWs c = true) :
    isBasicTokChar c = false := by
  rw [Bool.eq_false_iff]; intro hb
  rw [isWs_iff] at h; rw [isBasicTokChar_iff] at hb; omega

theorem ws_not_kvVal {c : Char} (h : isWs c = true) :
    isKvValChar c = false := by
  rw [Bool.eq_false_iff]; intro hb
  rw [isWs_iff] at h; rw [isKvValChar_iff] at hb; omega

theorem bearerTok_kvVal {c : Char} (h : isBearerTokChar c = true) :
    isKvValChar c = true := by
  rw [isBearerTokChar_iff] at h; rw [isKvValChar_iff]; omega

theorem basicTok_kvVal {c : Char} (h : isBasicTokChar c = true) :
    isKvValChar c = true := by
  rw [isBasicTokChar_iff] at h; rw [isKvValChar_iff]; omega

theorem kvStop_fix {d : Char} (h : isKvValChar d = false) :
    lowerChar d = d ∧ ¬(97 ≤ d.toNat ∧ d.toNat ≤ 122) := by
  have hd : d.toNat = 38 ∨ d.toNat = 32 ∨ d.toNat = 9 ∨ d.toNat = 10 ∨
      d.toNat = 13 := by
    by_contra hc
    exact absurd ((isKvValChar_iff d).mpr hc) (by simp [h])
  constructor
  · apply char_toNat_inj
    rw [lowerChar_toNat]
    split_ifs with h2 <;> omega
  · omega

-- ===== list helpers =====
/-- Pointwise case-insensitive equality of character lists. -/
def ciEqL : List Char → List Char → Bool
  | [], [] => true
  | a :: x, b :: y => lowerChar a = lowerChar b && ciEqL x y
  | _, _ => false

theorem ciEqL_length : ∀ {x y : List Char}, ciEqL x y = true → x.length = y.length
  | [], [], _ => rfl
  | a :: x, b :: y, h => by
    simp only [ciEqL, Bool.and_eq_true] at h
    simp [ciEqL_length h.2]
  | [], _ :: _, h => by simp [ciEqL] at h
  | _ :: _, [], h => by simp [ciEqL] at h

theorem ciEqL_trans_right : ∀ {x y L : List Char},
    ciEqL x L = true → ciEqL y L = true → ciEqL x y = true
  | [], [], [], _, _ => rfl
  | a :: x, b :: y, l :: L, hx, hy => by
    simp only [ciEqL, Bool.and_eq_true, decide_eq_true_eq] at *
    exact ⟨hx.1.trans hy.1.symm, ciEqL_trans_right hx.2 hy.2⟩
  | [], _, _ :: _, hx, _ => by simp [ciEqL] at hx
  | _, [], _ :: _, _, hy => by simp [ciEqL] at hy
  | a :: x, _, [], hx, _ => by simp [ciEqL] at hx
  | [], b :: y, [], _, hy => by simp [ciEqL] at hy

theorem takeWhile_all_append {P : Char → Bool} : ∀ (a y : List Char),
    (∀ x ∈ a, P x = true) → (a ++ y).takeWhile P = a ++ y.takeWhile P
  | [], y, _ => rfl
  | c :: a, y, h => by
    have hc : P c = true := h c (List.mem_cons_self c a)
    simp only [List.cons_append, List.takeWhile_cons, hc, if_true]
    rw [takeWhile_all_append a y (fun x hx => h x (List.mem_cons_of_mem c hx))]

theorem takeWhile_cons_false {P : Char → Bool} {d : Char} (z : List Char)
    (hd : P d = false) : (d :: z).takeWhile P = [] := by
  simp [List.takeWhile_cons, hd]

theorem mem_of_mem_takeWhile {P : Char → Bool} :
    ∀ {l : List Char} {x : Char}, x ∈ l.takeWhile P → P x = true := by
  intro l
  induction l with
  | nil => intro x hx; simp [List.takeWhile] at hx
  | cons c t ih =>
    intro x hx
    by_cases hc : P c = true
    · rw [List.takeWhile_cons, if_pos hc] at hx
      rcases List.mem_cons.mp hx with h1 | h1
      · exact h1 ▸ hc
      · exact ih h1
    · rw [List.takeWhile_cons, if_neg hc] at hx
      exact absurd hx (List.not_mem_nil x)

theorem dropWhile_head_false {P : Char → Bool} :
    ∀ {l : List Char} {d : Char} {r : List Char},
      l.dropWhile P = d :: r → P d = false := by
  intro l
  induction l with
  | nil => intro d r h; simp [List.dropWhile] at h
  | cons c t ih =>
    intro d r h
    rw [List.dropWhile_cons] at h
    split_ifs at h with hc
    · exact ih h
    · cases h; exact Bool.eq_false_iff.mpr hc

theorem drop_takeWhile_length {P : Char → Bool} (l : List Char) :
    l.drop (l.takeWhile P).length = l.dropWhile P := by
  have h2 := List.drop_left (l.takeWhile P) (l.dropWhile P)
  rw [List.takeWhile_append_dropWhile] at h2
  exact h2

-- ===== ciPrefRem lemmas =====
theorem ciPrefRem_some_decomp : ∀ {L cs r : List Char},
    ciPrefRem L cs = some r → ∃ l', cs = l' ++ r ∧ ciEqL l' L = true
  | [], cs, r, h => by
    refine ⟨[], ?_, rfl⟩
    simpa [ciPrefRem] using h
  | l :: ls, [], r, h => by simp [ciPrefRem] at h
  | l :: ls, c :: cs, r, h => by
    rw [ciPrefRem] at h
    split_ifs at h with hc
    · obtain ⟨l', h1, h2⟩ := ciPrefRem_some_decomp h
      exact ⟨c :: l', by simp [h1], by simp [ciEqL, hc, h2]⟩

theorem ciPrefRem_of_ciEqL : ∀ {L l' : List Char} (r : List Char),
    ciEqL l' L = true → ciPrefRem L (l' ++ r) = some r
  | [], [], r, _ => rfl
  | l :: ls, c :: cs, r, h => by
    simp only [ciEqL, Bool.and_eq_true, decide_eq_true_eq] at h
    simp only [List.cons_append, ciPrefRem, h.1, if_true]
    exact ciPrefRem_of_ciEqL r h.2
  | [], _ :: _, r, h => by simp [ciEqL] at h
  | _ :: _, [], r, h => by simp [ciEqL] at h

-- three-valued prefix test for the locked-failure certificate
inductive CiRes where
  | mi
  | ex
  | co (r : List Char)

def ciPrefRem3 : List Char → List Char → CiRes
  | [], cs => .co cs
  | _ :: _, [] => .ex
  | l :: ls, c :: cs => if lowerChar c = lowerChar l then ciPrefRem3 ls cs else .mi

theorem ciPrefRem3_mi : ∀ {L s : List Char}, ciPrefRem3 L s = .mi →
    ∀ X, ciPrefRem L (s ++ X) = none
  | [], s, h, _ => by simp [ciPrefRem3] at h
  | l :: ls, [], h, _ => by simp [ciPrefRem3] at h
  | l :: ls, c :: s, h, X => by
    rw [ciPrefRem3] at h
    rw [List.cons_append, ciPrefRem]
    split_ifs at h ⊢ with hc
    · exact ciPrefRem3_mi h X
    · rfl

theorem ciPrefRem3_co : ∀ {L s r : List Char}, ciPrefRem3 L s = .co r →
    ∀ X, ciPrefRem L (s ++ X) = some (r ++ X)
  | [], s, r, h, X => by
    cases h; rfl
  | l :: ls, [], r, h, _ => by simp [ciPrefRem3] at h
  | l :: ls, c :: s, r, h, X => by
    rw [ciPrefRem3] at h
    rw [List.cons_append, ciPrefRem]
    split_ifs at h ⊢ with hc
    · exact ciPrefRem3_co h X

-- ===== locked-failure certificate =====
/-- Tail test of `lockedFail`: given that the literal was fully consumed
with remainder `r` inside the certificate string, the failure seen in `r`
cannot be repaired by any continuation. -/
def lockedTail (q : ScanPat) : List Char → Bool
  | [] => false
  | c :: r' =>
    if q.needsWs then
      if isWs c then
        match (c :: r').dropWhile isWs with
        | [] => false
        | d :: _ => !q.val d
      else true
    else !q.val c

/-- Certificate that the matcher of `q` fails at `s` regardless of what
follows `s`. -/
def lockedFail (q : ScanPat) (s : List Char) : Bool :=
  match ciPrefRem3 q.lit s with
  | .mi => true
  | .ex => false
  | .co r => lockedTail q r

theorem lockedFail_sound {q : ScanPat} {s : List Char}
    (h : lockedFail q s = true) (X : List Char) :
    patMatch q (s ++ X) = none := by
  rcases h3 : ciPrefRem3 q.lit s with _ | _ | r
  · rw [patMatch, ciPrefRem3_mi h3 X]
  · rw [lockedFail, h3] at h; simp at h
  · rw [lockedFail, h3] at h
    rcases hws : q.needsWs with _ | _
    · -- needsWs = false
      simp only [patMatch, ciPrefRem3_co h3 X, hws, Bool.false_eq_true,
        if_false]
      rcases r with _ | ⟨c, r'⟩
      · simp [lockedTail] at h
      · simp only [lockedTail, hws, Bool.false_eq_true, if_false] at h
        have hc : q.val c = false := by simpa using h
        rw [List.cons_append, List.takeWhile_cons, hc]
        simp
    · -- needsWs = true
      simp only [patMatch, ciPrefRem3_co h3 X, hws, if_true]
      rcases r with _ | ⟨c, r'⟩
      · simp [lockedTail] at h
      · simp only [lockedTail, hws, if_true] at h
        rcases hcw : isWs c with _ | _
        · -- head not ws: whitespace run empty forever
          rw [List.cons_append, List.takeWhile_cons, hcw]
          simp
        · -- ws head; after the ws run a non-val char within s
          rw [hcw] at h
          simp only [if_true] at h
          rcases hdw : (c :: r').dropWhile isWs with _ | ⟨d, r''⟩
          · rw [hdw] at h; simp at h
          · rw [hdw] at h
            have hd : q.val d = false := by simpa using h
            have hdws : isWs d = false := dropWhile_head_false hdw
            have hsplit : (c :: r').takeWhile isWs ++ d :: r'' = c :: r' := by
              rw [← hdw, List.takeWhile_append_dropWhile]
            have htw : ∀ x ∈ (c :: r').takeWhile isWs, isWs x = true :=
              fun x hx => mem_of_mem_takeWhile hx
            have he : (c :: r') ++ X
                = (c :: r').takeWhile isWs ++ (d :: (r'' ++ X)) := by
              rw [show d :: (r'' ++ X) = (d :: r'') ++ X from rfl,
                ← List.append_assoc, hsplit]
            have h1 : ((c :: r') ++ X).takeWhile isWs
                = (c :: r').takeWhile isWs := by
              rw [he, takeWhile_all_append _ _ htw,
                takeWhile_cons_false _ hdws, List.append_nil]
            rw [h1]
            have h2 : ((c :: r') ++ X).drop ((c :: r').takeWhile isWs).length
                = d :: (r'' ++ X) := by
              rw [he, List.drop_left]
            rw [h2, takeWhile_cons_false _ hd]
            simp [List.takeWhile_cons, hcw]

/-- Every position of `s` (as a tail) is locked-fail for `q`. -/
def allSufLocked (q : ScanPat) : List Char → Bool
  | [] => true
  | c :: rest => lockedFail q (c :: rest) && allSufLocked q rest

theorem allSufLocked_suffix {q : ScanPat} : ∀ {s y : List Char},
    allSufLocked q s = true → y <:+ s → allSufLocked q y = true := by
  intro s
  induction s with
  | nil => intro y _ hy; rw [List.suffix_nil.mp hy]; rfl
  | cons c rest ih =>
    intro y h hy
    rw [allSufLocked, Bool.and_eq_true] at h
    rcases List.suffix_cons_iff.mp hy with h1 | h1
    · rw [h1, allSufLocked, Bool.and_eq_true]; exact ⟨h.1, h.2⟩
    · exact ih h.2 h1

theorem scan_copies_locked {q : ScanPat} : ∀ {s : List Char},
    allSufLocked q s = true → ∀ y,
    replaceScan (patMatch q) q.rep (s ++ y) =
      s ++ replaceScan (patMatch q) q.rep y := by
  intro s
  induction s with
  | nil => intro _ y; rfl
  | cons c rest ih =>
    intro h y
    rw [allSufLocked, Bool.and_eq_true] at h
    have hnone : patMatch q ((c :: rest) ++ y) = none :=
      lockedFail_sound h.1 y
    rw [List.cons_append, replaceScan]
    rw [List.cons_append] at hnone
    rw [hnone, ih h.2 y]
    rfl

-- ===== match anatomy =====
theorem patMatch_some_decomp {p : ScanPat} {cs : List Char} {k : Nat}
    (h : patMatch p cs = some k) :
    ∃ l' w v r, cs = l' ++ (w ++ (v ++ r)) ∧ ciEqL l' p.lit = true ∧
      (∀ x ∈ w, isWs x = true) ∧
      (p.needsWs = true → w ≠ []) ∧ (p.needsWs = false → w = []) ∧
      v ≠ [] ∧ (∀ x ∈ v, p.val x = true) ∧
      (r = [] ∨ ∃ d r', r = d :: r' ∧ p.val d = false) ∧
      k + 1 = l'.length + w.length + v.length ∧
      cs.drop (k + 1) = r := by
  rw [patMatch] at h
  rcases h1 : ciPrefRem p.lit cs with _ | r1
  · rw [h1] at h; exact absurd h (by simp)
  rw [h1] at h
  simp only [] at h
  obtain ⟨l', hcs, hci⟩ := ciPrefRem_some_decomp h1
  have hll : l'.length = p.lit.length := ciEqL_length hci
  rcases hws : p.needsWs with _ | _
  · -- needsWs = false
    rw [hws, if_neg Bool.false_ne_true] at h
    set v := r1.takeWhile p.val with hv
    set r := r1.dropWhile p.val with hr
    have hsplit : v ++ r = r1 := List.takeWhile_append_dropWhile p.val r1
    have ht : v.length ≠ 0 := by
      intro h0
      rw [if_pos h0] at h
      simp at h
    have hk : some (p.lit.length + v.length - 1) = some k := by
      rw [if_neg ht] at h
      exact h
    have hk2 : k + 1 = l'.length + 0 + v.length := by
      have := Option.some.inj hk
      omega
    refine ⟨l', [], v, r, ?_, hci, by simp, by simp [hws], fun _ => rfl,
      ?_, fun x hx => mem_of_mem_takeWhile hx, ?_, hk2, ?_⟩
    · rw [hcs, hsplit]; simp
    · intro h0; exact ht (by rw [h0]; rfl)
    · rcases hrr : r with _ | ⟨d, r'⟩
      · exact Or.inl rfl
      · exact Or.inr ⟨d, r', rfl, dropWhile_head_false (hr ▸ hrr)⟩
    · have hcs2 : cs = (l' ++ v) ++ r := by
        rw [hcs, ← hsplit]; simp
      rw [hcs2, List.drop_append_eq_append_drop]
      have hlen : (l' ++ v).length = k + 1 := by simp; omega
      rw [hlen]
      simp
      omega
  · -- needsWs = true
    rw [hws, if_pos rfl] at h
    set tw := r1.takeWhile isWs with htwdef
    have hwne : tw.length ≠ 0 := by
      intro h0
      rw [if_pos h0] at h
      simp at h
    rw [if_neg hwne] at h
    have hr2 : r1.drop tw.length = r1.dropWhile isWs := drop_takeWhile_length r1
    rw [hr2] at h
    set r2 := r1.dropWhile isWs with hr2def
    set v := r2.takeWhile p.val with hv
    set r := r2.dropWhile p.val with hr
    have hsplit2 : v ++ r = r2 := List.takeWhile_append_dropWhile p.val r2
    have hsplit1 : tw ++ r2 = r1 := List.takeWhile_append_dropWhile isWs r1
    have ht : v.length ≠ 0 := by
      intro h0
      rw [if_pos h0] at h
      simp at h
    have hk : some (p.lit.length + tw.length + v.length - 1) = some k := by
      rw [if_neg ht] at h
      exact h
    have hk2 : k + 1 = l'.length + tw.length + v.length := by
      have := Option.some.inj hk
      omega
    refine ⟨l', tw, v, r, ?_, hci,
      fun x hx => mem_of_mem_takeWhile hx,
      fun _ => ?_, fun hf => absurd hf (by simp),
      ?_, fun x hx => mem_of_mem_takeWhile hx, ?_, hk2, ?_⟩
    · rw [hcs, ← hsplit1, ← hsplit2]
    · intro h0; exact hwne (by rw [h0]; rfl)
    · intro h0; exact ht (by rw [h0]; rfl)
    · rcases hrr : r with _ | ⟨d, r'⟩
      · exact Or.inl rfl
      · exact Or.inr ⟨d, r', rfl, dropWhile_head_false (hr ▸ hrr)⟩
    · have hcs2 : cs = (l' ++ tw ++ v) ++ r := by
        rw [hcs, ← hsplit1, ← hsplit2]; simp
      rw [hcs2, List.drop_append_eq_append_drop]
      have hlen : (l' ++ tw ++ v).length = k + 1 := by simp; omega
      rw [hlen]
      simp
      omega

-- ===== matcher state machine =====
/-- State of the incremental matcher of a `ScanPat`: remaining literal to
consume, whitespace phases, pending value character, success, or failure. -/
inductive MState where
  | lit (s : List Char)
  | ws0
  | ws1
  | val0
  | matched
  | dead
deriving DecidableEq

/-- State entered once the literal has been consumed. -/
def postLit (p : ScanPat) : MState := if p.needsWs then .ws0 else .val0

/-- One step of the incremental matcher. -/
def mstep (p : ScanPat) : MState → Char → MState
  | .lit [], _ => .dead
  | .lit (l :: ls), c =>
      if lowerChar c = lowerChar l then
        match ls with
        | [] => postLit p
        | _ :: _ => .lit ls
      else .dead
  | .ws0, c => if isWs c then .ws1 else .dead
  | .ws1, c => if isWs c then .ws1 else if p.val c then .matched else .dead
  | .val0, c => if p.val c then .matched else .dead
  | .matched, _ => .matched
  | .dead, _ => .dead

def mrun (p : ScanPat) : MState → List Char → MState
  | st, [] => st
  | st, c :: cs => mrun p (mstep p st c) cs

theorem mrun_append (p : ScanPat) (st : MState) :
    ∀ (a b : List Char), mrun p st (a ++ b) = mrun p (mrun p st a) b := by
  intro a
  induction a generalizing st with
  | nil => intro b; rfl
  | cons c a' ih => intro b; rw [List.cons_append, mrun, mrun]; exact ih _ b

theorem mrun_dead (p : ScanPat) : ∀ (cs : List Char), mrun p .dead cs = .dead
  | [] => rfl
  | _ :: cs => mrun_dead p cs

theorem mrun_matched (p : ScanPat) :
    ∀ (cs : List Char), mrun p .matched cs = .matched
  | [] => rfl
  | _ :: cs => mrun_matched p cs

theorem mrun_lit_ci (p : ScanPat) : ∀ {L l' : List Char},
    ciEqL l' L = true → L ≠ [] → ∀ rest,
    mrun p (.lit L) (l' ++ rest) = mrun p (postLit p) rest := by
  intro L
  induction L with
  | nil => intro l' _ hne; exact absurd rfl hne
  | cons l ls ih =>
    intro l' hci _ rest
    rcases l' with _ | ⟨c, l''⟩
    · exact absurd hci (by simp [ciEqL])
    · simp only [ciEqL, Bool.and_eq_true, decide_eq_true_eq] at hci
      rw [List.cons_append, mrun]
      cases ls with
      | nil =>
        have h2 : l'' = [] :=
          List.length_eq_zero.mp (by simpa using ciEqL_length hci.2)
        rw [h2, mstep, if_pos hci.1]
        rfl
      | cons l2 ls' =>
        rw [mstep, if_pos hci.1]
        exact ih hci.2 (by simp) rest

theorem mrun_ws1_all (p : ScanPat) : ∀ {w : List Char},
    (∀ x ∈ w, isWs x = true) → ∀ rest,
    mrun p .ws1 (w ++ rest) = mrun p .ws1 rest := by
  intro w
  induction w with
  | nil => intro _ rest; rfl
  | cons u w' ih =>
    intro hw rest
    rw [List.cons_append, mrun, mstep, if_pos (hw u (List.mem_cons_self u w'))]
    exact ih (fun x hx => hw x (List.mem_cons_of_mem u hx)) rest

-- completion predicates
def CompVal0 (p : ScanPat) (cs : List Char) : Prop :=
  ∃ v tail, cs = v :: tail ∧ p.val v = true

def CompWs1 (p : ScanPat) (cs : List Char) : Prop :=
  ∃ w v tail, cs = w ++ v :: tail ∧ (∀ x ∈ w, isWs x = true) ∧ p.val v = true

def CompWs0 (p : ScanPat) (cs : List Char) : Prop :=
  ∃ u rest, cs = u :: rest ∧ isWs u = true ∧ CompWs1 p rest

def CompPost (p : ScanPat) (cs : List Char) : Prop :=
  if p.needsWs then CompWs0 p cs else CompVal0 p cs

def CompLit (p : ScanPat) (L : List Char) (cs : List Char) : Prop :=
  ∃ l' rest, cs = l' ++ rest ∧ ciEqL l' L = true ∧ CompPost p rest

/-- Some prefix of `cs` drives the matcher from state `st` to success. -/
def Completes (p : ScanPat) : MState → List Char → Prop
  | .lit L, cs => L ≠ [] ∧ CompLit p L cs
  | .ws0, cs => CompWs0 p cs
  | .ws1, cs => CompWs1 p cs
  | .val0, cs => CompVal0 p cs
  | .matched, _ => True
  | .dead, _ => False

theorem completes_postLit {p : ScanPat} {cs : List Char} :
    Completes p (postLit p) cs ↔ CompPost p cs := by
  rw [postLit, CompPost]
  rcases hws : p.needsWs with _ | _
  · rw [if_neg Bool.false_ne_true, if_neg Bool.false_ne_true]; rfl
  · rw [if_pos rfl, if_pos rfl]; rfl

theorem completes_of_mrun {p : ScanPat} : ∀ {cs : List Char} {st : MState},
    mrun p st cs = .matched → Completes p st cs := by
  intro cs
  induction cs with
  | nil =>
    intro st h
    rw [mrun] at h
    rw [h]
    trivial
  | cons c cs' ih =>
    intro st h
    rw [mrun] at h
    have hC := ih h
    rcases st with L | _ | _ | _ | _ | _
    · -- lit L
      rcases L with _ | ⟨l, ls⟩
      · exact (show False from hC).elim
      · simp only [mstep] at hC
        by_cases hcl : lowerChar c = lowerChar l
        · rw [if_pos hcl] at hC
          rcases hls : ls with _ | ⟨l2, ls'⟩
          · rw [hls] at hC
            refine ⟨by simp, [c], cs', rfl, ?_, ?_⟩
            · simp [ciEqL, hcl, hls]
            · exact completes_postLit.mp hC
          · rw [hls] at hC
            obtain ⟨hne, l'', rest, hcs, hci, hpost⟩ := hC
            refine ⟨by simp, c :: l'', rest, by rw [hcs]; rfl, ?_, hpost⟩
            simp [ciEqL, hcl, hls, hci]
        · rw [if_neg hcl] at hC
          exact (show False from hC).elim
    · -- ws0
      by_cases hw : isWs c = true
      · rw [mstep, if_pos hw] at hC
        exact ⟨c, cs', rfl, hw, hC⟩
      · rw [mstep, if_neg hw] at hC
        exact (show False from hC).elim
    · -- ws1
      by_cases hw : isWs c = true
      · rw [mstep, if_pos hw] at hC
        obtain ⟨w, v, tail, hcs, hws2, hv⟩ := hC
        exact ⟨c :: w, v, tail, by rw [hcs]; rfl,
          fun x hx => by
            rcases List.mem_cons.mp hx with h1 | h1
            · exact h1 ▸ hw
            · exact hws2 x h1, hv⟩
      · rw [mstep, if_neg hw] at hC
        by_cases hv : p.val c = true
        · exact ⟨[], c, cs', rfl, by simp, hv⟩
        · rw [if_neg hv] at hC
          exact (show False from hC).elim
    · -- val0
      by_cases hv : p.val c = true
      · exact ⟨c, cs', rfl, hv⟩
      · rw [mstep, if_neg hv] at hC
        exact (show False from hC).elim
    · -- matched
      trivial
    · -- dead
      exact (show False from hC).elim

theorem mrun_of_compWs1 {p : ScanPat}
    (hdisj : ∀ c, isWs c = true → p.val c = false) {cs : List Char}
    (h : CompWs1 p cs) : mrun p .ws1 cs = .matched := by
  obtain ⟨w, v, tail, hcs, hw, hv⟩ := h
  rw [hcs, mrun_ws1_all p hw, mrun, mstep]
  have hvw : isWs v = false := by
    rcases hww : isWs v with _ | _
    · rfl
    · rw [hdisj v hww] at hv; exact absurd hv (by simp)
  rw [hvw]
  simp only [Bool.false_eq_true, if_false, hv, if_true]
  exact mrun_matched p tail

theorem mrun_of_completes {p : ScanPat}
    (hdisj : ∀ c, isWs c = true → p.val c = false) :
    ∀ {st : MState} {cs : List Char},
    Completes p st cs → mrun p st cs = .matched := by
  intro st cs h
  rcases st with L | _ | _ | _ | _ | _
  · obtain ⟨hne, l', rest, hcs, hci, hpost⟩ := h
    rw [hcs, mrun_lit_ci p hci hne rest]
    rw [← completes_postLit] at hpost
    rw [postLit] at hpost ⊢
    rcases hws : p.needsWs with _ | _
    · rw [hws] at hpost
      rw [if_neg Bool.false_ne_true] at hpost ⊢
      obtain ⟨v, tail, hcs2, hv⟩ := hpost
      rw [hcs2, mrun, mstep, hv]
      simp only [if_true]
      exact mrun_matched p tail
    · rw [hws] at hpost
      rw [if_pos rfl] at hpost ⊢
      obtain ⟨u, rest2, hcs2, hu, h1⟩ := hpost
      rw [hcs2, mrun, mstep, if_pos hu]
      exact mrun_of_compWs1 hdisj h1
  · obtain ⟨u, rest2, hcs2, hu, h1⟩ := h
    rw [hcs2, mrun, mstep, if_pos hu]
    exact mrun_of_compWs1 hdisj h1
  · exact mrun_of_compWs1 hdisj h
  · obtain ⟨v, tail, hcs2, hv⟩ := h
    rw [hcs2, mrun, mstep, hv]
    simp only [if_true]
    exact mrun_matched p tail
  · exact mrun_matched p cs
  · exact (show False from h).elim

-- ===== patMatch / machine equivalence =====
theorem patMatch_some_completes {p : ScanPat} {cs : List Char} {k : Nat}
    (hlit : p.lit ≠ []) (h : patMatch p cs = some k) :
    Completes p (.lit p.lit) cs := by
  obtain ⟨l', w, v, r, hcs, hci, hwmem, hwne, hwnil, hvne, hvmem, _, _, _⟩ :=
    patMatch_some_decomp h
  refine ⟨hlit, l', w ++ (v ++ r), hcs, hci, ?_⟩
  rw [CompPost]
  rcases hvv : v with _ | ⟨vh, v'⟩
  · exact absurd hvv hvne
  have hvh : p.val vh = true :=
    hvmem vh (hvv ▸ List.mem_cons_self vh v')
  rcases hws : p.needsWs with _ | _
  · rw [if_neg Bool.false_ne_true]
    rw [hwnil hws]
    exact ⟨vh, v' ++ r, by simp, hvh⟩
  · rw [if_pos rfl]
    rcases hww : w with _ | ⟨u, w'⟩
    · exact absurd hww (hwne hws)
    refine ⟨u, w' ++ (v ++ r), by simp [hvv], 
      hwmem u (hww ▸ List.mem_cons_self u w'),
      w', vh, v' ++ r, by simp [hvv],
      fun x hx => hwmem x (hww ▸ List.mem_cons_of_mem u hx),
      hvh⟩

theorem completes_patMatch {p : ScanPat}
    (hdisj : ∀ c, isWs c = true → p.val c = false) {cs : List Char}
    (h : Completes p (.lit p.lit) cs) : patMatch p cs ≠ none := by
  obtain ⟨hne, l', rest, hcs, hci, hpost⟩ := h
  rw [patMatch, hcs, ciPrefRem_of_ciEqL rest hci]
  simp only []
  rw [CompPost] at hpost
  rcases hws : p.needsWs with _ | _
  · rw [hws] at hpost
    rw [if_neg Bool.false_ne_true] at hpost ⊢
    obtain ⟨v, tail, hr, hv⟩ := hpost
    rw [hr, List.takeWhile_cons, hv]
    simp
  · rw [hws] at hpost
    rw [if_pos rfl] at hpost ⊢
    obtain ⟨u, rest2, hr, hu, w, v, tail, hr2, hwmem, hv⟩ := hpost
    have hvw : isWs v = false := by
      rcases hww : isWs v with _ | _
      · rfl
      · rw [hdisj v hww] at hv; exact absurd hv (by simp)
    have hrest : rest = (u :: w) ++ (v :: tail) := by
      rw [hr, hr2]; rfl
    have htw : rest.takeWhile isWs = u :: w := by
      rw [hrest, takeWhile_all_append, takeWhile_cons_false _ hvw,
        List.append_nil]
      intro x hx
      rcases List.mem_cons.mp hx with h1 | h1
      · exact h1 ▸ hu
      · exact hwmem x h1
    rw [htw]
    have hdrop : rest.drop (u :: w).length = v :: tail := by
      rw [hrest, List.drop_left]
    rw [hdrop, List.takeWhile_cons, hv]
    simp

theorem patMatch_none_iff {p : ScanPat} (hlit : p.lit ≠ [])
    (hdisj : ∀ c, isWs c = true → p.val c = false) (cs : List Char) :
    patMatch p cs = none ↔ mrun p (.lit p.lit) cs ≠ .matched := by
  constructor
  · intro h hm
    exact completes_patMatch hdisj (completes_of_mrun hm) h
  · intro h
    rcases hp : patMatch p cs with _ | k
    · rfl
    · exact absurd
        (mrun_of_completes hdisj (patMatch_some_completes hlit hp)) h

-- ===== ci-invariance of the machine =====
theorem mstep_ci {p : ScanPat}
    (hvalci : ∀ a b, lowerChar a = lowerChar b → p.val a = p.val b)
    {a b : Char} (h : lowerChar a = lowerChar b) (st : MState) :
    mstep p st a = mstep p st b := by
  rcases st with s | _ | _ | _ | _ | _
  · rcases s with _ | ⟨l, ls⟩
    · rfl
    · simp only [mstep, h]
  · simp only [mstep, isWs_ci h]
  · simp only [mstep, isWs_ci h, hvalci a b h]
  · simp only [mstep, hvalci a b h]
  · rfl
  · rfl

theorem mrun_ci {p : ScanPat}
    (hvalci : ∀ a b, lowerChar a = lowerChar b → p.val a = p.val b) :
    ∀ {xs ys : List Char}, ciEqL xs ys = true → ∀ st,
    mrun p st xs = mrun p st ys := by
  intro xs
  induction xs with
  | nil =>
    intro ys h st
    rcases ys with _ | ⟨b, ys'⟩
    · rfl
    · exact absurd h (by simp [ciEqL])
  | cons a xs' ih =>
    intro ys h st
    rcases ys with _ | ⟨b, ys'⟩
    · exact absurd h (by simp [ciEqL])
    · simp only [ciEqL, Bool.and_eq_true, decide_eq_true_eq] at h
      rw [mrun, mrun, mstep_ci hvalci h.1 st]
      exact ih h.2 _

-- ===== state validity =====
def StOK (p : ScanPat) : MState → Prop
  | .lit s => s ≠ [] ∧ s <:+ p.lit
  | _ => True

theorem stOK_postLit (p : ScanPat) : StOK p (postLit p) := by
  rw [postLit]
  rcases p.needsWs with _ | _ <;> trivial

theorem stOK_mstep {p : ScanPat} {st : MState} (h : StOK p st) (c : Char) :
    StOK p (mstep p st c) := by
  rcases st with s | _ | _ | _ | _ | _
  · rcases s with _ | ⟨l, ls⟩
    · trivial
    · simp only [mstep]
      by_cases hcl : lowerChar c = lowerChar l
      · rw [if_pos hcl]
        rcases ls with _ | ⟨l2, ls'⟩
        · exact stOK_postLit p
        · refine ⟨by simp, ?_⟩
          exact List.IsSuffix.trans (List.suffix_cons l (l2 :: ls')) h.2
      · rw [if_neg hcl]; trivial
  · simp only [mstep]; split_ifs <;> trivial
  · simp only [mstep]; split_ifs <;> trivial
  · simp only [mstep]; split_ifs <;> trivial
  · trivial
  · trivial

theorem stOK_mrun {p : ScanPat} {st : MState} (h : StOK p st) :
    ∀ (cs : List Char), StOK p (mrun p st cs) := by
  intro cs
  induction cs generalizing st with
  | nil => exact h
  | cons c cs' ih => exact ih (stOK_mstep h c)

-- ===== the replacement suffix =====
/-- The shared tail `***REDACTED***` of all five replacement strings. -/
def starTail : List Char := "***REDACTED***".toList

theorem starTail_eq : starTail = '*' :: "**REDACTED***".toList := by decide

/-- The matched text of one `ScanPat` match: a case-insensitive copy of the
literal, the whitespace run (for the `\s+` patterns), and a nonempty run of
value-class characters. -/
def QSeg (q : ScanPat) (seg : List Char) : Prop :=
  ∃ l' w v, seg = l' ++ (w ++ v) ∧ ciEqL l' q.lit = true ∧
    (∀ x ∈ w, isWs x = true) ∧
    (q.needsWs = true → w ≠ []) ∧ (q.needsWs = false → w = []) ∧
    v ≠ [] ∧ (∀ x ∈ v, q.val x = true)

theorem seg_matched_ws1 {p q : ScanPat}
    (hsub : ∀ c, q.val c = true → p.val c = true)
    (hdisj_q : ∀ c, isWs c = true → q.val c = false)
    {w v : List Char} (hw : ∀ x ∈ w, isWs x = true)
    (hvne : v ≠ []) (hv : ∀ x ∈ v, q.val x = true) :
    mrun p .ws1 (w ++ v) = .matched := by
  rw [mrun_ws1_all p hw]
  rcases v with _ | ⟨vh, v'⟩
  · exact absurd rfl hvne
  have hvh : q.val vh = true := hv vh (List.mem_cons_self vh v')
  have hvw : isWs vh = false := by
    rcases hww : isWs vh with _ | _
    · rfl
    · rw [hdisj_q vh hww] at hvh; exact absurd hvh (by simp)
  rw [mrun, mstep, hvw]
  simp only [Bool.false_eq_true, if_false]
  rw [hsub vh hvh]
  simp only [if_true]
  exact mrun_matched p v'

-- ===== the core simulation lemma =====
theorem core_sim {p q : ScanPat}
    (hvalci : ∀ a b, lowerChar a = lowerChar b → p.val a = p.val b)
    (hdisj_p : ∀ c, isWs c = true → p.val c = false)
    (hdisj_q : ∀ c, isWs c = true → q.val c = false)
    (hA : ∀ c ∈ p.lit, isWs (lowerChar c) = false ∧ lowerChar c ≠ '*')
    (hstar : p.val '*' = true → ∀ c, q.val c = true → p.val c = true)
    (hcanon : ciEqL (q.rep.take q.lit.length) q.lit = true)
    (hsplit : q.rep = q.rep.take q.lit.length ++
        (if q.needsWs then ' ' :: starTail else starTail))
    {st : MState} (hst : StOK p st) {seg : List Char} (hseg : QSeg q seg) :
    mrun p st q.rep = .dead ∨ mrun p st seg = .matched := by
  obtain ⟨l', w, v, hsegeq, hciL, hwmem, hwne, hwnil, hvne, hvmem⟩ := hseg
  have hlc : ciEqL l' (q.rep.take q.lit.length) = true :=
    ciEqL_trans_right hciL hcanon
  have hseg1 : mrun p st seg
      = mrun p (mrun p st (q.rep.take q.lit.length)) (w ++ v) := by
    rw [hsegeq, mrun_append, mrun_ci hvalci hlc st]
  have hrep1 : mrun p st q.rep
      = mrun p (mrun p st (q.rep.take q.lit.length))
        (if q.needsWs then ' ' :: starTail else starTail) := by
    conv_lhs => rw [hsplit]
    rw [mrun_append]
  rw [hseg1, hrep1]
  generalize hg : mrun p st (q.rep.take q.lit.length) = st'
  have hstok' : StOK p st' := hg ▸ stOK_mrun hst _
  have hlow_sp : lowerChar ' ' = ' ' := by decide
  have hlow_st : lowerChar '*' = '*' := by decide
  have hws_sp : isWs ' ' = true := by decide
  have hws_st : isWs '*' = false := by decide
  rcases hqws : q.needsWs with _ | _
  · -- query-string style pattern: no whitespace part
    rw [if_neg Bool.false_ne_true, starTail_eq]
    have hw0 : w = [] := hwnil hqws
    rcases st' with s | _ | _ | _ | _ | _
    · rcases s with _ | ⟨c, s'⟩
      · left
        simp only [mrun, mstep]
      · left
        have hc : c ∈ p.lit := hstok'.2.subset (List.mem_cons_self c s')
        have hne : ¬(lowerChar '*' = lowerChar c) := by
          rw [hlow_st]
          intro hcc
          exact (hA c hc).2 hcc.symm
        simp only [mrun, mstep, if_neg hne]
    · left
      simp only [mrun, mstep, hws_st, Bool.false_eq_true, if_false]
    · rcases hpv : p.val '*' with _ | _
      · left
        simp only [mrun, mstep, hws_st, Bool.false_eq_true, if_false, hpv]
      · right
        subst hw0
        exact seg_matched_ws1 (hstar hpv) hdisj_q hwmem hvne hvmem
    · rcases hpv : p.val '*' with _ | _
      · left
        simp only [mrun, mstep, hpv, Bool.false_eq_true, if_false]
      · right
        subst hw0
        rw [List.nil_append]
        rcases v with _ | ⟨vh, v'⟩
        · exact absurd rfl hvne
        have hvh : p.val vh = true :=
          hstar hpv vh (hvmem vh (List.mem_cons_self vh v'))
        simp only [mrun, mstep, hvh, if_true]
        exact mrun_matched p _
    · right
      exact mrun_matched p _
    · left
      exact mrun_dead p _
  · -- whitespace style pattern: separator then the star tail
    rw [if_pos rfl]
    rcases st' with s | _ | _ | _ | _ | _
    · rcases s with _ | ⟨c, s'⟩
      · left
        simp only [mrun, mstep]
      · left
        have hc : c ∈ p.lit := hstok'.2.subset (List.mem_cons_self c s')
        have hne : ¬(lowerChar ' ' = lowerChar c) := by
          rw [hlow_sp]
          intro hcc
          have := (hA c hc).1
          rw [← hcc] at this
          rw [hws_sp] at this
          exact absurd this (by simp)
        simp only [mrun, mstep, if_neg hne]
    · -- ws0
      rcases hpv : p.val '*' with _ | _
      · left
        rw [starTail_eq]
        simp only [mrun, mstep, hws_sp, if_true, hws_st, Bool.false_eq_true,
          if_false, hpv]
      · right
        rcases hwv : w with _ | ⟨u, w'⟩
        · exact absurd hwv (hwne hqws)
        have hu : isWs u = true := hwmem u (hwv ▸ List.mem_cons_self u w')
        rw [List.cons_append, mrun, mstep, if_pos hu]
        exact seg_matched_ws1 (hstar hpv) hdisj_q
          (fun x hx => hwmem x (hwv ▸ List.mem_cons_of_mem u hx)) hvne hvmem
    · -- ws1
      rcases hpv : p.val '*' with _ | _
      · left
        rw [starTail_eq]
        simp only [mrun, mstep, hws_sp, if_true, hws_st, Bool.false_eq_true,
          if_false, hpv]
      · right
        exact seg_matched_ws1 (hstar hpv) hdisj_q hwmem hvne hvmem
    · -- val0
      left
      have hv_sp : p.val ' ' = false := hdisj_p ' ' hws_sp
      simp only [mrun, mstep, hv_sp, Bool.false_eq_true, if_false]
    · right
      exact mrun_matched p _
    · left
      exact mrun_dead p _

-- ===== machine preservation across a whole scan =====
theorem replaceScan_nil (matchAt : List Char → Option Nat)
    (rep : List Char) : replaceScan matchAt rep [] = [] := by
  rw [replaceScan]

theorem pres_scan {p q : ScanPat}
    (hvalci : ∀ a b, lowerChar a = lowerChar b → p.val a = p.val b)
    (hdisj_p : ∀ c, isWs c = true → p.val c = false)
    (hdisj_q : ∀ c, isWs c = true → q.val c = false)
    (hA : ∀ c ∈ p.lit, isWs (lowerChar c) = false ∧ lowerChar c ≠ '*')
    (hstar : p.val '*' = true → ∀ c, q.val c = true → p.val c = true)
    (hcanon : ciEqL (q.rep.take q.lit.length) q.lit = true)
    (hsplit : q.rep = q.rep.take q.lit.length ++
        (if q.needsWs then ' ' :: starTail else starTail)) :
    ∀ (n : Nat) (cs : List Char), cs.length ≤ n → ∀ st, StOK p st →
      mrun p st cs ≠ .matched →
      mrun p st (replaceScan (patMatch q) q.rep cs) ≠ .matched := by
  intro n
  induction n with
  | zero =>
    intro cs hlen st _ h
    have hnil : cs = [] := List.length_eq_zero.mp (Nat.le_zero.mp hlen)
    rw [hnil, replaceScan_nil]
    rw [hnil] at h
    exact h
  | succ n ih =>
    intro cs hlen st hstok h
    rcases cs with _ | ⟨c, rest⟩
    · rw [replaceScan_nil]
      exact h
    have hlen' : rest.length ≤ n := by
      rw [List.length_cons] at hlen
      omega
    rcases hm : patMatch q (c :: rest) with _ | k
    · have hscan : replaceScan (patMatch q) q.rep (c :: rest)
          = c :: replaceScan (patMatch q) q.rep rest := by
        rw [replaceScan, hm]
      rw [hscan, mrun]
      rw [mrun] at h
      exact ih rest hlen' (mstep p st c) (stOK_mstep hstok c) h
    · have hscan : replaceScan (patMatch q) q.rep (c :: rest)
          = q.rep ++ replaceScan (patMatch q) q.rep (rest.drop k) := by
        rw [replaceScan, hm]
      rw [hscan, mrun_append]
      obtain ⟨l', w, v, r, hcs, hci, hwmem, hwne, hwnil, hvne, hvmem, _,
        _, hdropr⟩ := patMatch_some_decomp hm
      have hqseg : QSeg q (l' ++ (w ++ v)) :=
        ⟨l', w, v, rfl, hci, hwmem, hwne, hwnil, hvne, hvmem⟩
      have hsegr : c :: rest = (l' ++ (w ++ v)) ++ r := by
        rw [hcs]
        simp [List.append_assoc]
      have hrdrop : rest.drop k = r := by
        rw [← hdropr, List.drop_succ_cons]
      rcases core_sim hvalci hdisj_p hdisj_q hA hstar hcanon hsplit
          hstok hqseg with hdead | hmatch
      · rw [hdead, mrun_dead]
        simp
      · exfalso
        apply h
        rw [hsegr, mrun_append, hmatch, mrun_matched]

/-- A failed match cannot be created by rewriting the text with any of the
five patterns: scanning preserves match-freedom at the head. -/
theorem none_persist {p q : ScanPat}
    (hlit : p.lit ≠ [])
    (hvalci : ∀ a b, lowerChar a = lowerChar b → p.val a = p.val b)
    (hdisj_p : ∀ c, isWs c = true → p.val c = false)
    (hdisj_q : ∀ c, isWs c = true → q.val c = false)
    (hA : ∀ c ∈ p.lit, isWs (lowerChar c) = false ∧ lowerChar c ≠ '*')
    (hstar : p.val '*' = true → ∀ c, q.val c = true → p.val c = true)
    (hcanon : ciEqL (q.rep.take q.lit.length) q.lit = true)
    (hsplit : q.rep = q.rep.take q.lit.length ++
        (if q.needsWs then ' ' :: starTail else starTail))
    {cs : List Char} (h : patMatch p cs = none) :
    patMatch p (replaceScan (patMatch q) q.rep cs) = none := by
  rw [patMatch_none_iff hlit hdisj_p] at h ⊢
  exact pres_scan hvalci hdisj_p hdisj_q hA hstar hcanon hsplit
    cs.length cs (le_refl _) _ ⟨hlit, List.suffix_refl _⟩ h

-- ===== scan fixed points =====
/-- Scanning `cs` with pattern `p` leaves it unchanged: every position
either fails to match or matches exactly its own replacement text. -/
inductive ScanFix (p : ScanPat) : List Char → Prop where
  | nil : ScanFix p []
  | keep (c : Char) (rest : List Char) :
      patMatch p (c :: rest) = none → ScanFix p rest →
      ScanFix p (c :: rest)
  | self (c : Char) (rest : List Char) (k : Nat) :
      patMatch p (c :: rest) = some k → p.rep = c :: rest.take k →
      ScanFix p (rest.drop k) → ScanFix p (c :: rest)

theorem scanFix_spec {p : ScanPat} : ∀ {cs : List Char}, ScanFix p cs →
    replaceScan (patMatch p) p.rep cs = cs := by
  intro cs h
  induction h with
  | nil => exact replaceScan_nil _ _
  | keep c rest hnone _ ih =>
    rw [replaceScan, hnone, ih]
  | self c rest k hm hrep _ ih =>
    rw [replaceScan, hm]
    show p.rep ++ replaceScan (patMatch p) p.rep (rest.drop k) = c :: rest
    rw [ih, hrep, List.cons_append, List.take_append_drop]

theorem scanFix_append_locked {p : ScanPat} : ∀ {s : List Char},
    allSufLocked p s = true → ∀ {x : List Char}, ScanFix p x →
    ScanFix p (s ++ x) := by
  intro s
  induction s with
  | nil => intro _ x hx; exact hx
  | cons c s' ih =>
    intro h x hx
    rw [allSufLocked, Bool.and_eq_true] at h
    rw [List.cons_append]
    exact ScanFix.keep c (s' ++ x)
      (by
        have := lockedFail_sound h.1 x
        rw [List.cons_append] at this
        exact this)
      (ih h.2 hx)

theorem ciEqL_refl : ∀ (L : List Char), ciEqL L L = true
  | [] => rfl
  | c :: L => by simp [ciEqL, ciEqL_refl L]

theorem patMatch_none_of_head {p : ScanPat} {c0 : Char} {s0 : List Char}
    (hlit : p.lit = c0 :: s0) {d : Char} (hne : lowerChar d ≠ lowerChar c0)
    (z : List Char) : patMatch p (d :: z) = none := by
  rw [patMatch, hlit, ciPrefRem, if_neg hne]

/-- A query-string pattern matches its own replacement exactly when the
following text does not start with a value character; the match consumes
exactly the replacement. -/
theorem scanFix_rep_self {p : ScanPat}
    (hlit : p.lit ≠ [])
    (hws : p.needsWs = false)
    (hrep : p.rep = p.lit ++ starTail)
    (hstarval : ∀ c ∈ starTail, p.val c = true)
    {x : List Char}
    (hx : x = [] ∨ ∃ d x', x = d :: x' ∧ p.val d = false)
    (hfix : ScanFix p x) : ScanFix p (p.rep ++ x) := by
  have htw : (starTail ++ x).takeWhile p.val = starTail := by
    rw [takeWhile_all_append _ _ hstarval]
    rcases hx with hx | ⟨d, x', hxd, hdv⟩
    · rw [hx]; rfl
    · rw [hxd, takeWhile_cons_false _ hdv, List.append_nil]
  have hm : patMatch p (p.rep ++ x)
      = some (p.lit.length + starTail.length - 1) := by
    rw [patMatch, hrep, List.append_assoc,
      ciPrefRem_of_ciEqL (starTail ++ x) (ciEqL_refl p.lit), hws]
    simp only [Bool.false_eq_true, if_false, htw]
    rw [if_neg (by rw [starTail]; simp)]
  rcases hrr : p.rep with _ | ⟨rh, rt⟩
  · exfalso
    rw [hrr] at hrep
    rcases hl : p.lit with _ | ⟨c0, s0⟩
    · exact hlit hl
    · rw [hl] at hrep
      exact absurd hrep.symm (by simp)
  have hrt : rt.length = p.lit.length + starTail.length - 1 := by
    have : p.rep.length = p.lit.length + starTail.length := by
      rw [hrep]; simp
    rw [hrr] at this
    simp at this
    omega
  have hlitpos : 1 ≤ p.lit.length := by
    rcases hl : p.lit with _ | ⟨c0, s0⟩
    · exact absurd hl hlit
    · simp
  refine ScanFix.self rh (rt ++ x) (p.lit.length + starTail.length - 1)
    ?_ ?_ ?_
  · rw [← List.cons_append, ← hrr, hm]
  · rw [List.take_left' hrt, ← hrr]
  · rw [List.drop_left' hrt]
    exact hfix

theorem suffix_append_cases {y : List Char} : ∀ {a b : List Char},
    y <:+ a ++ b → y <:+ b ∨ ∃ a', a' <:+ a ∧ a' ≠ [] ∧ y = a' ++ b := by
  intro a
  induction a with
  | nil => intro b h; exact Or.inl h
  | cons c a' ih =>
    intro b h
    rw [List.cons_append] at h
    rcases List.suffix_cons_iff.mp h with h1 | h1
    · exact Or.inr ⟨c :: a', List.suffix_refl _, by simp, h1⟩
    · rcases ih h1 with h2 | ⟨a'', hs, hne, heq⟩
      · exact Or.inl h2
      · exact Or.inr ⟨a'', hs.trans (List.suffix_cons c a'), hne, heq⟩

/-- A fixed point of the scan is fixed at every suffix, provided every
proper suffix of the replacement is a locked failure. -/
theorem scanFix_suffix {p : ScanPat}
    (htl : allSufLocked p (p.rep.drop 1) = true) :
    ∀ {t : List Char}, ScanFix p t → ∀ {y : List Char}, y <:+ t →
    ScanFix p y := by
  intro t h
  induction h with
  | nil =>
    intro y hy
    rw [List.suffix_nil.mp hy]
    exact ScanFix.nil
  | keep c rest hnone hfix ih =>
    intro y hy
    rcases List.suffix_cons_iff.mp hy with h1 | h1
    · rw [h1]; exact ScanFix.keep c rest hnone hfix
    · exact ih h1
  | self c rest k hm hrep hfix ih =>
    intro y hy
    rcases List.suffix_cons_iff.mp hy with h1 | h1
    · rw [h1]; exact ScanFix.self c rest k hm hrep hfix
    · have hrest : rest = rest.take k ++ rest.drop k :=
        (List.take_append_drop k rest).symm
      rw [hrest] at h1
      rcases suffix_append_cases h1 with h2 | ⟨a', hs, hne, heq⟩
      · exact ih h2
      · have hdrop1 : p.rep.drop 1 = rest.take k := by
          rw [hrep]; rfl
        have hl : allSufLocked p a' = true :=
          allSufLocked_suffix htl (hdrop1 ▸ hs)
        rw [heq]
        exact scanFix_append_locked hl hfix

-- ===== master lemma 1: a scan's output is a fixed point =====
theorem scanFix_self_master {p : ScanPat}
    (hlit : p.lit ≠ [])
    (hvalci : ∀ a b, lowerChar a = lowerChar b → p.val a = p.val b)
    (hdisj : ∀ c, isWs c = true → p.val c = false)
    (hA : ∀ c ∈ p.lit, isWs (lowerChar c) = false ∧ lowerChar c ≠ '*')
    (hcanon : ciEqL (p.rep.take p.lit.length) p.lit = true)
    (hsplit : p.rep = p.rep.take p.lit.length ++
        (if p.needsWs then ' ' :: starTail else starTail))
    (hownlock : p.needsWs = true → allSufLocked p p.rep = true)
    (hkvrep : p.needsWs = false → p.rep = p.lit ++ starTail)
    (hkvstar : p.needsWs = false → ∀ c ∈ starTail, p.val c = true)
    (hstop : p.needsWs = false → ∀ d, p.val d = false → ∀ c0 s0,
      p.lit = c0 :: s0 → lowerChar d ≠ lowerChar c0) :
    ∀ (n : Nat) (cs : List Char), cs.length ≤ n →
    ScanFix p (replaceScan (patMatch p) p.rep cs) := by
  intro n
  induction n with
  | zero =>
    intro cs hlen
    rw [List.length_eq_zero.mp (Nat.le_zero.mp hlen), replaceScan_nil]
    exact ScanFix.nil
  | succ n ih =>
    intro cs hlen
    rcases cs with _ | ⟨c, rest⟩
    · rw [replaceScan_nil]; exact ScanFix.nil
    have hlen' : rest.length ≤ n := by
      rw [List.length_cons] at hlen; omega
    rcases hm : patMatch p (c :: rest) with _ | k
    · have hscan : replaceScan (patMatch p) p.rep (c :: rest)
          = c :: replaceScan (patMatch p) p.rep rest := by
        rw [replaceScan, hm]
      rw [hscan]
      refine ScanFix.keep c _ ?_ (ih rest hlen')
      have := none_persist hlit hvalci hdisj hdisj hA
        (fun _ => fun c hc => hc) hcanon hsplit hm
      rw [hscan] at this
      exact this
    · have hscan : replaceScan (patMatch p) p.rep (c :: rest)
          = p.rep ++ replaceScan (patMatch p) p.rep (rest.drop k) := by
        rw [replaceScan, hm]
      rw [hscan]
      have hfix' : ScanFix p (replaceScan (patMatch p) p.rep (rest.drop k)) :=
        ih (rest.drop k) (le_trans (by simp [List.length_drop]) hlen')
      rcases hws : p.needsWs with _ | _
      · -- query-string pattern: self-match block
        refine scanFix_rep_self hlit hws (hkvrep hws) (hkvstar hws) ?_ hfix'
        obtain ⟨_, _, _, r, _, _, _, _, _, _, _, hrstop, _, hdropr⟩ :=
          patMatch_some_decomp hm
        have hur : rest.drop k = r := by
          rw [← hdropr, List.drop_succ_cons]
        rcases hrstop with hr0 | ⟨d, r', hrd, hdv⟩
        · left
          rw [hur, hr0, replaceScan_nil]
        · right
          rcases hl : p.lit with _ | ⟨c0, s0⟩
          · exact absurd hl hlit
          have hnone2 : patMatch p (d :: r') = none :=
            patMatch_none_of_head hl (hstop hws d hdv c0 s0 hl) r'
          refine ⟨d, replaceScan (patMatch p) p.rep r', ?_, hdv⟩
          rw [hur, hrd, replaceScan, hnone2]
      · -- whitespace pattern: walk the locked replacement
        exact scanFix_append_locked (hownlock hws) hfix'

-- ===== master lemma 2: another pattern's scan preserves fixed points =====
theorem scanFix_preserved {p q : ScanPat}
    (hlit : p.lit ≠ [])
    (hqlit : q.lit ≠ [])
    (hvalci : ∀ a b, lowerChar a = lowerChar b → p.val a = p.val b)
    (hdisj_p : ∀ c, isWs c = true → p.val c = false)
    (hdisj_q : ∀ c, isWs c = true → q.val c = false)
    (hA : ∀ c ∈ p.lit, isWs (lowerChar c) = false ∧ lowerChar c ≠ '*')
    (hstar : p.val '*' = true → ∀ c, q.val c = true → p.val c = true)
    (hcanon : ciEqL (q.rep.take q.lit.length) q.lit = true)
    (hsplit : q.rep = q.rep.take q.lit.length ++
        (if q.needsWs then ' ' :: starTail else starTail))
    (hlock_pq : allSufLocked p q.rep = true)
    (hlock_qp : allSufLocked q p.rep = true)
    (htl : allSufLocked p (p.rep.drop 1) = true)
    (hownlock : p.needsWs = true → allSufLocked p p.rep = true)
    (hkvrep : p.needsWs = false → p.rep = p.lit ++ starTail)
    (hkvstar : p.needsWs = false → ∀ c ∈ starTail, p.val c = true)
    (hstopq : p.needsWs = false → ∀ d, p.val d = false → ∀ c0 s0,
      q.lit = c0 :: s0 → lowerChar d ≠ lowerChar c0) :
    ∀ (n : Nat) (t : List Char), t.length ≤ n → ScanFix p t →
    ScanFix p (replaceScan (patMatch q) q.rep t) := by
  intro n
  induction n with
  | zero =>
    intro t hlen _
    rw [List.length_eq_zero.mp (Nat.le_zero.mp hlen), replaceScan_nil]
    exact ScanFix.nil
  | succ n ih =>
    intro t hlen hfix
    rcases hfix with _ | ⟨c, rest, hnone, hfixrest⟩ | ⟨c, rest, k, hm, hrep, hfixu⟩
    · rw [replaceScan_nil]; exact ScanFix.nil
    · -- keep node at the head
      have hlen' : rest.length ≤ n := by
        rw [List.length_cons] at hlen; omega
      rcases hqm : patMatch q (c :: rest) with _ | kq
      · have hscan : replaceScan (patMatch q) q.rep (c :: rest)
            = c :: replaceScan (patMatch q) q.rep rest := by
          rw [replaceScan, hqm]
        rw [hscan]
        refine ScanFix.keep c _ ?_ (ih rest hlen' hfixrest)
        have := none_persist hlit hvalci hdisj_p hdisj_q hA hstar hcanon
          hsplit hnone
        rw [hscan] at this
        exact this
      · have hscan : replaceScan (patMatch q) q.rep (c :: rest)
            = q.rep ++ replaceScan (patMatch q) q.rep (rest.drop kq) := by
          rw [replaceScan, hqm]
        rw [hscan]
        have hfixdrop : ScanFix p (rest.drop kq) :=
          scanFix_suffix htl hfixrest (List.drop_suffix kq rest)
        have hfix' : ScanFix p (replaceScan (patMatch q) q.rep (rest.drop kq)) :=
          ih (rest.drop kq) (le_trans (by simp [List.length_drop]) hlen')
            hfixdrop
        exact scanFix_append_locked hlock_pq hfix'
    · -- self node at the head: the whole replacement block sits here
      have hteq : c :: rest = p.rep ++ rest.drop k := by
        rw [hrep, List.cons_append, List.take_append_drop]
      have hulen : (rest.drop k).length ≤ n := by
        rw [List.length_cons] at hlen
        simp [List.length_drop]
        omega
      have hscan : replaceScan (patMatch q) q.rep (c :: rest)
          = p.rep ++ replaceScan (patMatch q) q.rep (rest.drop k) := by
        rw [hteq, scan_copies_locked hlock_qp]
      rw [hscan]
      rcases hws : p.needsWs with _ | _
      · -- query-string p: rebuild the self block
        have hfix' : ScanFix p (replaceScan (patMatch q) q.rep (rest.drop k)) :=
          ih (rest.drop k) hulen hfixu
        refine scanFix_rep_self hlit hws (hkvrep hws) (hkvstar hws) ?_ hfix'
        obtain ⟨_, _, _, r, _, _, _, _, _, _, _, hrstop, _, hdropr⟩ :=
          patMatch_some_decomp hm
        have hur : rest.drop k = r := by
          rw [← hdropr, List.drop_succ_cons]
        rcases hrstop with hr0 | ⟨d, r', hrd, hdv⟩
        · left
          rw [hur, hr0, replaceScan_nil]
        · right
          rcases hl : q.lit with _ | ⟨c0, s0⟩
          · exact absurd hl hqlit
          have hnone2 : patMatch q (d :: r') = none :=
            patMatch_none_of_head hl (hstopq hws d hdv c0 s0 hl) r'
          refine ⟨d, replaceScan (patMatch q) q.rep r', ?_, hdv⟩
          rw [hur, hrd, replaceScan, hnone2]
      · -- whitespace p: a self node contradicts its own locked replacement
        exfalso
        have hl0 : lockedFail p p.rep = true := by
          have := hownlock hws
          rcases hrr : p.rep with _ | ⟨rh, rt⟩
          · rw [hrr] at hrep
            exact absurd hrep (by simp)
          · rw [hrr] at this
            rw [allSufLocked, Bool.and_eq_true] at this
            exact this.1
        have := lockedFail_sound hl0 (rest.drop k)
        rw [← hteq] at this
        rw [this] at hm
        exact absurd hm (by simp)

-- ===== per-pattern certificates =====
theorem kvStop_ne {d c0 : Char} (hd : isKvValChar d = false)
    (hc : 97 ≤ (lowerChar c0).toNat ∧ (lowerChar c0).toNat ≤ 122) :
    lowerChar d ≠ lowerChar c0 := by
  obtain ⟨hfix, hnl⟩ := kvStop_fix hd
  intro he
  rw [hfix] at he
  exact hnl (by rw [he]; exact hc)

/-- The decidable facts about one of the five patterns that the fixed-point
machinery consumes. -/
structure PatCerts (p : ScanPat) : Prop where
  lit_ne : p.lit ≠ []
  valci : ∀ a b, lowerChar a = lowerChar b → p.val a = p.val b
  disj : ∀ c, isWs c = true → p.val c = false
  litA : ∀ c ∈ p.lit, isWs (lowerChar c) = false ∧ lowerChar c ≠ '*'
  canon : ciEqL (p.rep.take p.lit.length) p.lit = true
  split : p.rep = p.rep.take p.lit.length ++
      (if p.needsWs then ' ' :: starTail else starTail)
  tl : allSufLocked p (p.rep.drop 1) = true
  ownlock : p.needsWs = true → allSufLocked p p.rep = true
  kvrep : p.needsWs = false → p.rep = p.lit ++ starTail
  kvstar : p.needsWs = false → ∀ c ∈ starTail, p.val c = true
  stopkv : p.needsWs = false → ∀ d, p.val d = false → isKvValChar d = false
  headlet : 97 ≤ (lowerChar (p.lit.headD 'a')).toNat ∧
      (lowerChar (p.lit.headD 'a')).toNat ≤ 122

theorem stopq_of {p q : ScanPat} (hp : PatCerts p) (hq : PatCerts q) :
    p.needsWs = false → ∀ d, p.val d = false → ∀ c0 s0,
    q.lit = c0 :: s0 → lowerChar d ≠ lowerChar c0 := by
  intro hws d hd c0 s0 hl
  have hc0 : c0 = q.lit.headD 'a' := by rw [hl]; rfl
  rw [hc0]
  exact kvStop_ne (hp.stopkv hws d hd) hq.headlet

theorem bearer_certs : PatCerts bearerPat where
  lit_ne := by decide
  valci := fun _ _ h => isBearerTokChar_ci h
  disj := fun _ h => ws_not_bearerTok h
  litA := by decide
  canon := by decide
  split := by decide
  tl := by decide
  ownlock := fun _ => by decide
  kvrep := fun h => absurd h (by decide)
  kvstar := fun h => absurd h (by decide)
  stopkv := fun h => absurd h (by decide)
  headlet := by decide

theorem basic_certs : PatCerts basicPat where
  lit_ne := by decide
  valci := fun _ _ h => isBasicTokChar_ci h
  disj := fun _ h => ws_not_basicTok h
  litA := by decide
  canon := by decide
  split := by decide
  tl := by decide
  ownlock := fun _ => by decide
  kvrep := fun h => absurd h (by decide)
  kvstar := fun h => absurd h (by decide)
  stopkv := fun h => absurd h (by decide)
  headlet := by decide

theorem csecret_certs : PatCerts csecretPat where
  lit_ne := by decide
  valci := fun _ _ h => isKvValChar_ci h
  disj := fun _ h => ws_not_kvVal h
  litA := by decide
  canon := by decide
  split := by decide
  tl := by decide
  ownlock := fun h => absurd h (by decide)
  kvrep := fun _ => by decide
  kvstar := fun _ => by decide
  stopkv := fun _ _ h => h
  headlet := by decide

theorem atoken_certs : PatCerts atokenPat where
  lit_ne := by decide
  valci := fun _ _ h => isKvValChar_ci h
  disj := fun _ h => ws_not_kvVal h
  litA := by decide
  canon := by decide
  split := by decide
  tl := by decide
  ownlock := fun h => absurd h (by decide)
  kvrep := fun _ => by decide
  kvstar := fun _ => by decide
  stopkv := fun _ _ h => h
  headlet := by decide

theorem akey_certs : PatCerts akeyPat where
  lit_ne := by decide
  valci := fun _ _ h => isKvValChar_ci h
  disj := fun _ h => ws_not_kvVal h
  litA := by decide
  canon := by decide
  split := by decide
  tl := by decide
  ownlock := fun h => absurd h (by decide)
  kvrep := fun _ => by decide
  kvstar := fun _ => by decide
  stopkv := fun _ _ h => h
  headlet := by decide

/-- One character-level scan pass. -/
def scanL (p : ScanPat) (cs : List Char) : List Char :=
  replaceScan (patMatch p) p.rep cs

theorem scan_output_fix {p : ScanPat} (hp : PatCerts p) (cs : List Char) :
    ScanFix p (scanL p cs) :=
  scanFix_self_master hp.lit_ne hp.valci hp.disj hp.litA hp.canon hp.split
    hp.ownlock hp.kvrep hp.kvstar (stopq_of hp hp) cs.length cs (le_refl _)

theorem scan_preserves_fix {p q : ScanPat} (hp : PatCerts p) (hq : PatCerts q)
    (hsub : p.val '*' = true → ∀ c, q.val c = true → p.val c = true)
    (hpq : allSufLocked p q.rep = true) (hqp : allSufLocked q p.rep = true)
    {t : List Char} (hfix : ScanFix p t) : ScanFix p (scanL q t) :=
  scanFix_preserved hp.lit_ne hq.lit_ne hp.valci hp.disj hq.disj hp.litA hsub
    hq.canon hq.split hpq hqp hp.tl hp.ownlock hp.kvrep hp.kvstar
    (stopq_of hp hq) t.length t (le_refl _) hfix

-- ===== idempotence of the five-pass chain =====
theorem mss_idem_chars (cs : List Char) :
    scanL akeyPat (scanL atokenPat (scanL csecretPat (scanL basicPat
      (scanL bearerPat (scanL akeyPat (scanL atokenPat (scanL csecretPat
        (scanL basicPat (scanL bearerPat cs))))))))) =
    scanL akeyPat (scanL atokenPat (scanL csecretPat (scanL basicPat
      (scanL bearerPat cs)))) := by
  -- fixed-point facts for the first-pass output chain
  have f1_1 : ScanFix bearerPat (scanL bearerPat cs) :=
    scan_output_fix bearer_certs cs
  have f1_2 : ScanFix bearerPat (scanL basicPat (scanL bearerPat cs)) :=
    scan_preserves_fix bearer_certs basic_certs
      (fun hs => absurd hs (by decide)) (by decide) (by decide) f1_1
  have f2_2 : ScanFix basicPat (scanL basicPat (scanL bearerPat cs)) :=
    scan_output_fix basic_certs _
  have f1_3 : ScanFix bearerPat (scanL csecretPat (scanL basicPat
      (scanL bearerPat cs))) :=
    scan_preserves_fix bearer_certs csecret_certs
      (fun hs => absurd hs (by decide)) (by decide) (by decide) f1_2
  have f2_3 : ScanFix basicPat (scanL csecretPat (scanL basicPat
      (scanL bearerPat cs))) :=
    scan_preserves_fix basic_certs csecret_certs
      (fun hs => absurd hs (by decide)) (by decide) (by decide) f2_2
  have f3_3 : ScanFix csecretPat (scanL csecretPat (scanL basicPat
      (scanL bearerPat cs))) :=
    scan_output_fix csecret_certs _
  have f1_4 : ScanFix bearerPat (scanL atokenPat (scanL csecretPat
      (scanL basicPat (scanL bearerPat cs)))) :=
    scan_preserves_fix bearer_certs atoken_certs
      (fun hs => absurd hs (by decide)) (by decide) (by decide) f1_3
  have f2_4 : ScanFix basicPat (scanL atokenPat (scanL csecretPat
      (scanL basicPat (scanL bearerPat cs)))) :=
    scan_preserves_fix basic_certs atoken_certs
      (fun hs => absurd hs (by decide)) (by decide) (by decide) f2_3
  have f3_4 : ScanFix csecretPat (scanL atokenPat (scanL csecretPat
      (scanL basicPat (scanL bearerPat cs)))) :=
    scan_preserves_fix csecret_certs atoken_certs
      (fun _ c hc => hc) (by decide) (by decide) f3_3
  have f4_4 : ScanFix atokenPat (scanL atokenPat (scanL csecretPat
      (scanL basicPat (scanL bearerPat cs)))) :=
    scan_output_fix atoken_certs _
  have f1_5 : ScanFix bearerPat (scanL akeyPat (scanL atokenPat
      (scanL csecretPat (scanL basicPat (scanL bearerPat cs))))) :=
    scan_preserves_fix bearer_certs akey_certs
      (fun hs => absurd hs (by decide)) (by decide) (by decide) f1_4
  have f2_5 : ScanFix basicPat (scanL akeyPat (scanL atokenPat
      (scanL csecretPat (scanL basicPat (scanL bearerPat cs))))) :=
    scan_preserves_fix basic_certs akey_certs
      (fun hs => absurd hs (by decide)) (by decide) (by decide) f2_4
  have f3_5 : ScanFix csecretPat (scanL akeyPat (scanL atokenPat
      (scanL csecretPat (scanL basicPat (scanL bearerPat cs))))) :=
    scan_preserves_fix csecret_certs akey_certs
      (fun _ c hc => hc) (by decide) (by decide) f3_4
  have f4_5 : ScanFix atokenPat (scanL akeyPat (scanL atokenPat
      (scanL csecretPat (scanL basicPat (scanL bearerPat cs))))) :=
    scan_preserves_fix atoken_certs akey_certs
      (fun _ c hc => hc) (by decide) (by decide) f4_4
  have f5_5 : ScanFix akeyPat (scanL akeyPat (scanL atokenPat
      (scanL csecretPat (scanL basicPat (scanL bearerPat cs))))) :=
    scan_output_fix akey_certs _
  rw [show scanL bearerPat (scanL akeyPat (scanL atokenPat (scanL csecretPat
      (scanL basicPat (scanL bearerPat cs))))) = _ from scanFix_spec f1_5,
    show scanL basicPat (scanL akeyPat (scanL atokenPat (scanL csecretPat
      (scanL basicPat (scanL bearerPat cs))))) = _ from scanFix_spec f2_5,
    show scanL csecretPat (scanL akeyPat (scanL atokenPat (scanL csecretPat
      (scanL basicPat (scanL bearerPat cs))))) = _ from scanFix_spec f3_5,
    show scanL atokenPat (scanL akeyPat (scanL atokenPat (scanL csecretPat
      (scanL basicPat (scanL bearerPat cs))))) = _ from scanFix_spec f4_5,
    show scanL akeyPat (scanL akeyPat (scanL atokenPat (scanL csecretPat
      (scanL basicPat (scanL bearerPat cs))))) = _ from scanFix_spec f5_5]

/-- Idempotence of the plain-string redaction: running the five global
replaces a second time changes nothing. -/
theorem maskStringSecrets_idem (s : String) :
    maskStringSecrets (maskStringSecrets s) = maskStringSecrets s := by
  show String.mk _ = String.mk _
  exact congrArg String.mk (mss_idem_chars s.toList)

/-! ## Serialization and structural views of JSON values -/

/-- JSON string escaping of one character (the cases relevant here). -/
def escChar (c : Char) : String :=
  if c = '"' then "\\\"" else if c = '\\' then "\\\\"
  else if c = '\n' then "\\n" else if c = '\r' then "\\r"
  else if c = '\t' then "\\t" else String.singleton c

/-- JSON string escaping. -/
def escapeStr (s : String) : String := String.join (s.toList.map escChar)

mutual
/-- Compact model of `JSON.stringify` (the source passes `null, 2`, which
only inserts whitespace between tokens; no claim here depends on that
whitespace). -/
def serializeJson : Json → String
  | .str s => "\"" ++ escapeStr s ++ "\""
  | .num n => toString n
  | .bool b => cond b "true" "false"
  | .null => "null"
  | .obj kvs => "\x7b" ++ serializeEntries kvs ++ "\x7d"
  | .arr l => "[" ++ serializeItems l ++ "]"

/-- Comma-joined serialization of object entries. -/
def serializeEntries : List (String × Json) → String
  | [] => ""
  | [kv] => "\"" ++ escapeStr kv.1 ++ "\":" ++ serializeJson kv.2
  | kv :: rest =>
    "\"" ++ escapeStr kv.1 ++ "\":" ++ serializeJson kv.2 ++ "," ++
      serializeEntries rest

/-- Comma-joined serialization of array items. -/
def serializeItems : List Json → String
  | [] => ""
  | [v] => serializeJson v
  | v :: rest => serializeJson v ++ "," ++ serializeItems rest
end

mutual
/-- All key/value entries of a JSON value at any nesting depth, in the
JavaScript `Object.entries` sense: object entries, and array elements under
their index keys.  (String characters are not walked by `maskObject`'s
recursion, so they are not listed.) -/
def subEntries : Json → List (String × Json)
  | .obj kvs => subEntriesL kvs
  | .arr l => subEntriesA 0 l
  | _ => []

/-- Entries of an object, each followed by its value's deeper entries. -/
def subEntriesL : List (String × Json) → List (String × Json)
  | [] => []
  | (k, v) :: rest => (k, v) :: (subEntries v ++ subEntriesL rest)

/-- Entries of an array (index keys), each followed by deeper entries. -/
def subEntriesA (i : Nat) : List Json → List (String × Json)
  | [] => []
  | v :: rest => (toString i, v) :: (subEntries v ++ subEntriesA (i + 1) rest)
end

mutual
/-- All string leaf values occurring in a JSON value. -/
def strValues : Json → List String
  | .str s => [s]
  | .obj kvs => strValuesL kvs
  | .arr l => strValuesA l
  | _ => []

/-- String leaves below a list of entries. -/
def strValuesL : List (String × Json) → List String
  | [] => []
  | (_, v) :: rest => strValues v ++ strValuesL rest

/-- String leaves below a list of items. -/
def strValuesA : List Json → List String
  | [] => []
  | v :: rest => strValues v ++ strValuesA rest
end

/-- `p` is a literal leading subsequence of the second list. -/
def startsWithL : List Char → List Char → Bool
  | [], _ => true
  | _ :: _, [] => false
  | a :: as, b :: bs => a = b && startsWithL as bs

/-- `p` occurs contiguously somewhere in the list. -/
def hasSubSeq (p : List Char) : List Char → Bool
  | [] => startsWithL p []
  | c :: rest => startsWithL p (c :: rest) || hasSubSeq p rest

/-- Substring occurrence test on strings. -/
def strOccurs (pat s : String) : Bool := hasSubSeq pat.toList s.toList

/-! ## Log store (`logger.ts`) -/

/-- A body string, modelled by its parse outcome: either the `Json` value
`JSON.parse` yields, or the raw string when it is not valid JSON. -/
inductive BodyRep where
  | jsonVal : Json → BodyRep
  | rawStr : String → BodyRep
deriving Repr

/-- The string a body denotes (`JSON.stringify` for parsed values). -/
def bodyToString : BodyRep → String
  | .jsonVal j => serializeJson j
  | .rawStr s => s

/-- JavaScript truthiness of the body string: only `""` is falsy. -/
def bodyFalsy : BodyRep → Bool
  | .rawStr s => s = ""
  | .jsonVal _ => false

/-- `maskJsonString` (`maskSecrets.ts` lines 86-97) on a non-empty body:
parseable JSON is masked structurally, anything else goes through
`maskStringSecrets`. -/
def maskBody : BodyRep → BodyRep
  | .jsonVal j => .jsonVal (maskObject j)
  | .rawStr s => .rawStr (maskStringSecrets s)

/-- `MAX_BODY_SIZE` (`logger.ts` line 17). -/
def MAX_BODY_SIZE : Nat := 200 * 1024

/-- Size capping of a stored body (`truncateString` applied to the body's
string form; a truncated JSON string is no longer JSON). -/
def truncBody (b : BodyRep) (maxLen : Nat) : BodyRep :=
  if (bodyToString b).length ≤ maxLen then b
  else .rawStr (truncateString (bodyToString b) maxLen)

/-- One record of the log store, `ApiLogEntry` (`logger.ts` lines 19-35).
`timestamp` and `durationMs` are ambient-clock outputs; the claims do not
constrain them. -/
structure LogEntry where
  requestId : String
  timestamp : String
  method : String
  url : String
  status : Nat
  statusText : String
  durationMs : Nat
  requestHeaders : List (String × String)
  requestBody : Option BodyRep
  responseHeaders : List (String × String)
  responseBody : Option BodyRep
  tenantId : Option String
  featureArea : String
  error : Option String
deriving Repr

/-- The redaction transform `logApiCall` applies before persisting
(`logger.ts` lines 95-102): request headers through `maskHeaders`, request
body through `maskJsonString`, response body through `maskJsonString` then
size truncation; the ternaries map falsy bodies to `null`.  Response
headers are stored as-is. -/
def redactEntry (e : LogEntry) : LogEntry :=
  { e with
    requestHeaders := maskHeaders e.requestHeaders
    requestBody :=
      match e.requestBody with
      | some b => if bodyFalsy b then none else some (maskBody b)
      | none => none
    responseBody :=
      match e.responseBody with
      | some b => if bodyFalsy b then none else
          some (truncBody (maskBody b) MAX_BODY_SIZE)
      | none => none }

/-- `logApiCall` (`logger.ts` lines 90-116): the store is the list of
persisted records; `store.add(redactedEntry)` is the single write path. -/
def logApiCall (e : LogEntry) (store : List LogEntry) : List LogEntry :=
  store ++ [redactEntry e]

/-! ## Dual-token manager (`tokenManager`) -/

/-- `TokenData` (token-manager source lines 21-27). -/
structure TokenData where
  accessToken : String
  expiresAt : Nat
  scope : Option String
  audience : Option String
  tokenType : String
deriving Repr

/-- `REFRESH_BUFFER_MS` (token-manager source line 57). -/
def REFRESH_BUFFER_MS : Nat := 60 * 1000

/-- `isTokenValid` (token-manager source lines 178-181):
`token.expiresAt > Date.now() + REFRESH_BUFFER_MS`. -/
def isTokenValid (now : Nat) : Option TokenData → Bool
  | none => false
  | some t => decide (t.expiresAt > now + REFRESH_BUFFER_MS)

/-- `TokenMetadata` (token-manager source lines 29-36). -/
structure TokenMetadata where
  expiresAt : Nat
  expiresIn : Nat
  scope : Option String
  audience : Option String
  isValid : Bool
  lastRefresh : Option Nat
deriving Repr

/-- `getTokenMetadata` (token-manager source lines 219-242).  With `Nat`
subtraction, `(t.expiresAt - now) / 1000` equals
`Math.max(0, Math.floor((expiresAt - now) / 1000))`. -/
def getTokenMetadata (now : Nat) (token : Option TokenData)
    (lastRefresh : Option Nat) : TokenMetadata :=
  match token with
  | none =>
    { expiresAt := 0, expiresIn := 0, scope := none, audience := none
      isValid := false, lastRefresh := lastRefresh }
  | some t =>
    { expiresAt := t.expiresAt, expiresIn := (t.expiresAt - now) / 1000
      scope := t.scope, audience := t.audience
      isValid := isTokenValid now (some t), lastRefresh := lastRefresh }

/-- The shared mutable state for one token type: `tokens[type]`,
`lastRefreshTimes[type]`, and whether `refreshPromises[type]` is non-null;
plus an instrumentation counter of `fetchToken` invocations. -/
structure TMState where
  cached : Option TokenData
  lastRefresh : Option Nat
  marker : Bool
  fetchesStarted : Nat
deriving Repr

/-- What one `getToken` caller is doing after its synchronous phase:
finished with a result, awaiting its own `fetchToken` (the owner), or
awaiting the shared in-flight promise. -/
inductive CallerPhase where
  | waitingOwner
  | waitingShared
  | done (result : Except String (Option String))
deriving Repr

/-- `result?.accessToken || null`: an empty bearer string is falsy and
collapses to `null`. -/
def tokenResultOf : Except String (Option TokenData) →
    Except String (Option String)
  | .error e => .error e
  | .ok none => .ok none
  | .ok (some t) => .ok (if t.accessToken = "" then none else some t.accessToken)

/-- The synchronous prefix of `getToken` (token-manager source lines
192-204), run atomically under the event loop: return a valid cached
token; otherwise join an in-flight refresh; otherwise set the in-flight
marker and start `fetchToken`. -/
def startCaller (now : Nat) (s : TMState) : TMState × CallerPhase :=
  match s.cached with
  | some t =>
    if isTokenValid now s.cached then (s, .done (.ok (some t.accessToken)))
    else if s.marker then (s, .waitingShared)
    else ({ s with marker := true, fetchesStarted := s.fetchesStarted + 1 },
          .waitingOwner)
  | none =>
    if s.marker then (s, .waitingShared)
    else ({ s with marker := true, fetchesStarted := s.fetchesStarted + 1 },
          .waitingOwner)

/-- `n` callers run their synchronous `getToken` prefixes, one after the
other (each prefix is atomic; any interleaving of `n` concurrent callers
that all start before the refresh resolves is such a sequence). -/
def startN (now : Nat) : Nat → TMState → TMState × List CallerPhase
  | 0, s => (s, [])
  | n + 1, s =>
    let sp := startCaller now s
    let rest := startN now n sp.1
    (rest.1, sp.2 :: rest.2)

/-- When the shared refresh settles with `r`, every waiting caller's
`await` produces the same value (token-manager source lines 199-200 and
207-210). -/
def resolvePhase (r : Except String (Option TokenData)) :
    CallerPhase → Except String (Option String)
  | .done v => v
  | .waitingOwner => tokenResultOf r
  | .waitingShared => tokenResultOf r

/-- The owner's continuation (token-manager source lines 206-213): on
success the token and refresh time are stored; on a rejection the stores
are skipped; the `finally` clears the in-flight marker in both cases. -/
def resolveState (s : TMState) (nowDone : Nat)
    (r : Except String (Option TokenData)) : TMState :=
  match r with
  | .ok td => { s with cached := td, lastRefresh := some nowDone, marker := false }
  | .error _ => { s with marker := false }

/-! ## Instrumented request pipeline (`apiClient.ts`) -/

/-- `ApiRequestOptions` (`apiClient.ts` lines 20-32); the token type and
feature area are the source's string unions. -/
structure ReqOptions where
  method : String
  endpoint : String
  body : Option Json
  headers : List (String × String)
  tokenType : String
  featureArea : String
  tenantId : Option String
  skipAuth : Bool
  retries : Option Nat
  idempotencyKey : Option String
deriving Repr

/-- Retry configuration (`apiClient.ts` lines 46-49). -/
def DEFAULT_MAX_RETRIES : Nat := 3

/-- Base backoff delay in milliseconds (`apiClient.ts` line 48). -/
def RETRY_BASE_DELAY_MS : Nat := 1000

/-- The retryable status set (`apiClient.ts` line 49). -/
def RETRYABLE_STATUS_CODES : List Nat := [429, 500, 502, 503, 504]

/-- Injected configuration (`configManager`): physical and logical base
URLs per token type. -/
structure ApiConfig where
  apiBaseUrl : String
  subscriptionApiUrl : String
  originalApiBaseUrl : String
  originalSubscriptionApiUrl : String
deriving Repr

/-- `getBaseUrl` (`apiClient.ts` lines 97-99). -/
def getBaseUrl (c : ApiConfig) (tokenType : String) : String :=
  if tokenType = "subscription" then c.subscriptionApiUrl else c.apiBaseUrl

/-- `getOriginalBaseUrl` (`apiClient.ts` lines 104-106). -/
def getOriginalBaseUrl (c : ApiConfig) (tokenType : String) : String :=
  if tokenType = "subscription" then c.originalSubscriptionApiUrl
  else c.originalApiBaseUrl

/-- The response-header allow-list (`apiClient.ts` lines 75-83). -/
def interestingHeaders : List String :=
  ["content-type", "x-request-id", "x-correlation-id", "x-ratelimit-limit",
   "x-ratelimit-remaining", "retry-after", "date"]

/-- `extractResponseHeaders` (`apiClient.ts` lines 73-92): keep only the
allow-listed headers, preserving key case. -/
def extractResponseHeaders (hs : List (String × String)) :
    List (String × String) :=
  hs.filter fun kv => interestingHeaders.contains (strLower kv.1)

/-- JavaScript object-property assignment on a string-keyed record:
overwrite an existing key in place, or append. -/
def setHeader (hs : List (String × String)) (k v : String) :
    List (String × String) :=
  if hs.any (fun p => p.1 = k) then
    hs.map fun p => if p.1 = k then (k, v) else p
  else hs ++ [(k, v)]

/-- The request-header construction (`apiClient.ts` lines 139-148):
`Content-Type`/`Accept` defaults, caller headers spread over them, and the
idempotency header for mutating methods when a key is supplied. -/
def buildBaseHeaders (opts : ReqOptions) : List (String × String) :=
  let base := [("Content-Type", "application/json"),
               ("Accept", "application/json")]
  let merged := opts.headers.foldl (fun acc kv => setHeader acc kv.1 kv.2) base
  match opts.idempotencyKey with
  | some key =>
    if ["POST", "PUT", "PATCH"].contains opts.method then
      setHeader merged "X-Idempotency-Key" key
    else merged
  | none => merged

/-- JavaScript truthiness of a JSON value (`options.body ? … : null`). -/
def jsFalsy : Json → Bool
  | .null => true
  | .bool b => !b
  | .num n => n = 0
  | .str s => s = ""
  | _ => false

/-- `options.body ? JSON.stringify(options.body) : null`. -/
def reqBodyStr (b : Option Json) : Option BodyRep :=
  match b with
  | none => none
  | some j => if jsFalsy j then none else some (.jsonVal j)

/-- `response.ok`: status in the 2xx range. -/
def respOk (st : Nat) : Bool := 200 ≤ st && st ≤ 299

/-- Outcome of one `fetch` call, as observed by the pipeline: an HTTP
response (with body text modelled by its parse outcome, `none` = empty
text), a `TypeError` whose message contains `Failed to fetch` (the CORS
classification), or any other thrown error. -/
inductive FetchOutcome where
  | resp (status : Nat) (statusText : String)
      (headers : List (String × String)) (body : Option BodyRep)
  | corsFail
  | thrown (msg : String)
deriving Repr

/-- Outcome of `await getToken(...)` inside the pipeline's try block:
a value (string or null), or a thrown error. -/
inductive AuthOutcome where
  | got (tok : Option String)
  | threw (msg : String)
deriving Repr

/-- The error message of the CORS short-circuit (`apiClient.ts` line 324). -/
def corsErrorMsg : String :=
  "CORS restriction or network error - sandbox endpoint may not support browser requests"

/-- Observable effects of one `apiRequest` run: the durable log store, the
per-feature-area latest-call cache, the backoff sleeps (ms), and the number
of `fetch` calls issued. -/
structure RunTrace where
  store : List LogEntry
  cache : String → Option LogEntry
  sleepsMs : List Nat
  fetches : Nat

/-- The discriminated result object of `apiRequest` (`ApiResponse`,
`apiClient.ts` lines 34-44). -/
structure ApiResult where
  success : Bool
  data : Option Json
  status : Nat
  statusText : String
  headers : List (String × String)
  error : Option String
  logEntry : LogEntry

/-- Append a log entry to the durable store and the latest-call cache
(`await logApiCall(logEntry); latestCalls[options.featureArea] = logEntry`).
The store receives the redacted copy; the cache holds the entry itself. -/
def recordCall (tr : RunTrace) (fa : String) (le : LogEntry) : RunTrace :=
  { tr with store := logApiCall le tr.store
            cache := Function.update tr.cache fa (some le) }

/-- `error: response.ok ? undefined : responseBody || response.statusText`. -/
def respErrText (rbody : Option BodyRep) (stText : String) : String :=
  match rbody with
  | none => stText
  | some b => if bodyToString b = "" then stText else bodyToString b

/-- The retry loop of `apiRequest` (`apiClient.ts` lines 234-384).
`fuel` bounds the number of loop iterations (the loop need not terminate:
a non-CORS exception at `attempt == maxRetries` neither returns nor
increments `attempt`, so the loop re-runs the fetch); `none` as a result
means the budget was exhausted.  `k` counts loop iterations (one fetch
each), `a` is the source's `attempt` counter. -/
def runLoop (requestId : String) (opts : ReqOptions) (logUrl : String)
    (hdrs : List (String × String)) (env : Nat → FetchOutcome) :
    Nat → Nat → Nat → Nat → Option String → RunTrace →
    RunTrace × Option ApiResult
  | 0, _, _, _, _, tr => (tr, none)
  | fuel + 1, k, a, mr, lastErr, tr =>
    if a > mr then
      -- `// All retries exhausted` (`apiClient.ts` lines 353-384).
      let le : LogEntry :=
        { requestId := requestId, timestamp := "", method := opts.method
          url := logUrl, status := 0, statusText := "Request Failed"
          durationMs := 0, requestHeaders := hdrs
          requestBody := reqBodyStr opts.body, responseHeaders := []
          responseBody := none, tenantId := opts.tenantId
          featureArea := opts.featureArea
          error := some (lastErr.getD "Request failed after retries") }
      (recordCall tr opts.featureArea le,
       some { success := false, data := none, status := 0
              statusText := "Request Failed", headers := []
              error := some (lastErr.getD "Request failed after retries")
              logEntry := le })
    else
      match env k with
      | .resp st stText rhs rbody =>
        let respHeaders := extractResponseHeaders rhs
        let dataVal : Option Json :=
          match rbody with
          | some (.jsonVal j) => some j
          | _ => none
        let le : LogEntry :=
          { requestId := requestId, timestamp := "", method := opts.method
            url := logUrl, status := st, statusText := stText, durationMs := 0
            requestHeaders := hdrs, requestBody := reqBodyStr opts.body
            responseHeaders := respHeaders, responseBody := rbody
            tenantId := opts.tenantId, featureArea := opts.featureArea
            error := none }
        let tr := { recordCall tr opts.featureArea le with
                    fetches := tr.fetches + 1 }
        if RETRYABLE_STATUS_CODES.contains st && a < mr then
          let delay := RETRY_BASE_DELAY_MS * 2 ^ a
          runLoop requestId opts logUrl hdrs env fuel (k + 1) (a + 1) mr
            lastErr { tr with sleepsMs := tr.sleepsMs ++ [delay] }
        else
          (tr, some { success := respOk st
                      data := if respOk st then dataVal else none
                      status := st, statusText := stText
                      headers := respHeaders
                      error := if respOk st then none
                               else some (respErrText rbody stText)
                      logEntry := le })
      | .corsFail =>
        let le : LogEntry :=
          { requestId := requestId, timestamp := "", method := opts.method
            url := logUrl, status := 0, statusText := "CORS/Network Error"
            durationMs := 0, requestHeaders := hdrs
            requestBody := reqBodyStr opts.body, responseHeaders := []
            responseBody := none, tenantId := opts.tenantId
            featureArea := opts.featureArea, error := some corsErrorMsg }
        let tr := { recordCall tr opts.featureArea le with
                    fetches := tr.fetches + 1 }
        (tr, some { success := false, data := none, status := 0
                    statusText := "CORS/Network Error", headers := []
                    error := some corsErrorMsg, logEntry := le })
      | .thrown msg =>
        let tr := { tr with fetches := tr.fetches + 1 }
        if a < mr then
          let delay := RETRY_BASE_DELAY_MS * 2 ^ a
          runLoop requestId opts logUrl hdrs env fuel (k + 1) (a + 1) mr
            (some msg) { tr with sleepsMs := tr.sleepsMs ++ [delay] }
        else
          -- `attempt == maxRetries`, non-CORS error: neither branch of the
          -- catch fires, the while condition is re-checked and still holds,
          -- and the fetch is re-run without sleeping or incrementing.
          runLoop requestId opts logUrl hdrs env fuel (k + 1) a mr
            (some msg) tr

/-- `!token`: `getToken` returned `null` or an empty string. -/
def tokenFalsy : Option String → Bool
  | none => true
  | some s => s = ""

/-- `apiRequest` (`apiClient.ts` lines 118-384): URL resolution, header
construction, the auth phase (unless `skipAuth`), then the retry loop.
`auth` is the observed outcome of `getToken`; `env` the per-iteration fetch
outcomes; `cache0`/`store0` the pre-call cache and durable store. -/
def apiRequestModel (cfg : ApiConfig) (requestId : String)
    (opts : ReqOptions) (auth : AuthOutcome) (env : Nat → FetchOutcome)
    (fuel : Nat) (cache0 : String → Option LogEntry)
    (store0 : List LogEntry) : RunTrace × Option ApiResult :=
  let mr := opts.retries.getD DEFAULT_MAX_RETRIES
  let originalBaseUrl := getOriginalBaseUrl cfg opts.tokenType
  let logUrl := if opts.endpoint.startsWith "http" then opts.endpoint
                else originalBaseUrl ++ opts.endpoint
  let hdrs0 := buildBaseHeaders opts
  let tr0 : RunTrace := { store := store0, cache := cache0, sleepsMs := []
                          fetches := 0 }
  if opts.skipAuth then
    runLoop requestId opts logUrl hdrs0 env fuel 0 0 mr none tr0
  else
    match auth with
    | .got tok =>
      if tokenFalsy tok then
        let le : LogEntry :=
          { requestId := requestId, timestamp := "", method := opts.method
            url := logUrl, status := 0, statusText := "Auth Failed"
            durationMs := 0, requestHeaders := hdrs0
            requestBody := reqBodyStr opts.body, responseHeaders := []
            responseBody := none, tenantId := opts.tenantId
            featureArea := opts.featureArea
            error := some "Failed to obtain access token" }
        (recordCall tr0 opts.featureArea le,
         some { success := false, data := none, status := 0
                statusText := "Auth Failed", headers := []
                error := some "Failed to obtain access token"
                logEntry := le })
      else
        let hdrs := setHeader hdrs0 "Authorization"
          ("Bearer " ++ tok.getD "")
        runLoop requestId opts logUrl hdrs env fuel 0 0 mr none tr0
    | .threw msg =>
      let le : LogEntry :=
        { requestId := requestId, timestamp := "", method := opts.method
          url := logUrl, status := 0, statusText := "Auth Error"
          durationMs := 0, requestHeaders := hdrs0
          requestBody := reqBodyStr opts.body, responseHeaders := []
          responseBody := none, tenantId := opts.tenantId
          featureArea := opts.featureArea, error := some msg }
      (recordCall tr0 opts.featureArea le,
       some { success := false, data := none, status := 0
              statusText := "Auth Error", headers := []
              error := some msg, logEntry := le })

/-- `getLatestCall` (`apiClient.ts` lines 425-427). -/
def getLatestCall (cache : String → Option LogEntry) (featureArea : String) :
    Option LogEntry :=
  cache featureArea

/-! ## Tenant creation (`subscriptionService.ts`) -/

/-- The subscription endpoint constant (`subscriptionService.ts` line 6). -/
def SUBSCRIPTIONS_BASE_URL : String :=
  "https://api.sandbox.sbc.sage.com/slcsadapter/v2/subscriptions"

/-- Exact-key lookup in a header record (`asyncHeader['retry-after']`). -/
def lookupHeader (hs : List (String × String)) (k : String) : Option String :=
  (hs.find? fun p => p.1 = k).map fun p => p.2

/-- `parseInt(s, 10)`: skip leading whitespace, optional sign, then decimal
digits; `none` models `NaN`. -/
def parseIntJs (s : String) : Option Int :=
  let cs := s.toList.dropWhile isWs
  let signed : Int × List Char :=
    match cs with
    | '-' :: r => (-1, r)
    | '+' :: r => (1, r)
    | _ => (1, cs)
  let ds := signed.2.takeWhile Char.isDigit
  if ds.isEmpty then none
  else some (signed.1 *
    (ds.foldl (fun acc c => acc * 10 + ((c.toNat : Int) - ('0'.toNat : Int))) 0))

/-- What `createTenant` observes of one `apiRequest` call: the fields its
control flow inspects. -/
structure SvcResponse where
  success : Bool
  status : Nat
  headers : List (String × String)
  hasData : Bool
deriving Repr

/-- One `apiRequest` call issued by `createTenant`, as the service
parameterized it. -/
structure SvcCall where
  method : String
  endpoint : String
  idempotencyKey : Option String
  retries : Option Nat
deriving Repr

/-- The observable run of `createTenant`: the pipeline calls it made in
order, an optional sleep (the parsed `retry-after` seconds; inner `none`
models `NaN`), and whether it returned normally (`false` = threw). -/
structure TenantRun where
  calls : List SvcCall
  sleptSeconds : Option (Option Int)
  ok : Bool
deriving Repr

/-- `createTenant` (`subscriptionService.ts` lines 57-147), from the point
where the request body and idempotency key are fixed: issue the initial
POST with `retries: 0`; on a 202, parse `retry-after` (the `|| '5'` default
applies when the header is absent or empty), sleep that many seconds, and
re-issue the identical request with the same idempotency key and
`retries: 2`; otherwise succeed on a successful response with data, else
throw. -/
def createTenantModel (resp1 resp2 : SvcResponse) (key : String) :
    TenantRun :=
  let call1 : SvcCall :=
    { method := "POST", endpoint := SUBSCRIPTIONS_BASE_URL
      idempotencyKey := some key, retries := some 0 }
  if resp1.status = 202 then
    let hv := (lookupHeader resp1.headers "retry-after").getD ""
    let retryAfter := parseIntJs (if hv = "" then "5" else hv)
    let call2 : SvcCall :=
      { method := "POST", endpoint := SUBSCRIPTIONS_BASE_URL
        idempotencyKey := some key, retries := some 2 }
    { calls := [call1, call2], sleptSeconds := some retryAfter
      ok := resp2.success && resp2.hasData }
  else if resp1.success && resp1.hasData then
    { calls := [call1], sleptSeconds := none, ok := true }
  else
    { calls := [call1], sleptSeconds := none, ok := false }

/-! ## Claim theorems -/

/-- Claim C6: a cached token is reported valid iff `now + 60s` is strictly
below its expiry instant; a token expiring in 59s is invalid and one
expiring in 61s is valid, both through `isTokenValid` and through the
`isValid` field of `getTokenMetadata`. -/
theorem C6_expiry_buffer :
    (∀ (now : Nat) (t : TokenData),
      isTokenValid now (some t) = true ↔ now + 60000 < t.expiresAt) ∧
    (∀ (now : Nat) (tok : Option TokenData) (lr : Option Nat),
      (getTokenMetadata now tok lr).isValid = isTokenValid now tok) ∧
    (∀ (now : Nat) (a ty : String) (sc au : Option String) (lr : Option Nat),
      isTokenValid now (some ⟨a, now + 59000, sc, au, ty⟩) = false ∧
      isTokenValid now (some ⟨a, now + 61000, sc, au, ty⟩) = true ∧
      (getTokenMetadata now (some ⟨a, now + 59000, sc, au, ty⟩) lr).isValid
        = false ∧
      (getTokenMetadata now (some ⟨a, now + 61000, sc, au, ty⟩) lr).isValid
        = true) := by
  refine ⟨?_, ?_, ?_⟩
  · intro now t
    simp [isTokenValid, REFRESH_BUFFER_MS]
  · intro now tok lr
    cases tok <;> simp [getTokenMetadata, isTokenValid]
  · intro now a ty sc au lr
    refine ⟨?_, ?_, ?_, ?_⟩ <;>
      simp [isTokenValid, getTokenMetadata, REFRESH_BUFFER_MS]

/-- Claim C7, counterexample: when the initial `createTenant` POST returns
202 with no `retry-after` header, the service sleeps 5 seconds, not the
3 seconds the claim states. -/
theorem C7_counterexample :
    (createTenantModel
      { success := false, status := 202, headers := [], hasData := false }
      { success := true, status := 201, headers := [], hasData := true }
      "key-1").sleptSeconds = some (some 5) ∧
    ((5 : Int) = 3 → False) := by
  constructor
  · rfl
  · intro h
    exact absurd h (by decide)

/-- Claim C7 as amended: on a 202, `createTenant` sleeps the number of
seconds given by the `retry-after` response header — defaulting to 5
seconds (not 3) when the header is absent — and then re-issues the same
request with the same idempotency key exactly once (`retries: 2` on the
re-issue). -/
theorem C7_retry_after_once (resp1 resp2 : SvcResponse) (key : String)
    (h202 : resp1.status = 202) :
    (createTenantModel resp1 resp2 key).calls =
      [⟨"POST", SUBSCRIPTIONS_BASE_URL, some key, some 0⟩,
       ⟨"POST", SUBSCRIPTIONS_BASE_URL, some key, some 2⟩] ∧
    (lookupHeader resp1.headers "retry-after" = none →
      (createTenantModel resp1 resp2 key).sleptSeconds = some (some 5)) ∧
    (∀ v, lookupHeader resp1.headers "retry-after" = some v → v ≠ "" →
      (createTenantModel resp1 resp2 key).sleptSeconds
        = some (parseIntJs v)) := by
  refine ⟨?_, ?_, ?_⟩
  · simp [createTenantModel, h202]
  · intro hna
    simp [createTenantModel, h202, hna]
    rfl
  · intro v hv hne
    simp [createTenantModel, h202, hv, hne]

/-- Witness for C7's amended theorem: a concrete 202 response carrying
`retry-after: 2` sleeps 2 seconds and re-issues once with the same key. -/
theorem C7_retry_after_once_witness :
    (createTenantModel
      { success := false, status := 202
        headers := [("retry-after", "2")], hasData := false }
      { success := true, status := 201, headers := [], hasData := true }
      "key-1").calls =
      [⟨"POST", SUBSCRIPTIONS_BASE_URL, some "key-1", some 0⟩,
       ⟨"POST", SUBSCRIPTIONS_BASE_URL, some "key-1", some 2⟩] ∧
    (createTenantModel
      { success := false, status := 202
        headers := [("retry-after", "2")], hasData := false }
      { success := true, status := 201, headers := [], hasData := true }
      "key-1").sleptSeconds = some (some 2) := by
  have h := C7_retry_after_once
    { success := false, status := 202
      headers := [("retry-after", "2")], hasData := false }
    { success := true, status := 201, headers := [], hasData := true }
    "key-1" rfl
  refine ⟨h.1, ?_⟩
  have h2 := h.2.2 "2" (by rfl) (by decide)
  rw [h2]
  rfl

/-- Shared fixture: a sample injected configuration. -/
def sampleCfg : ApiConfig :=
  { apiBaseUrl := "/proxy/", subscriptionApiUrl := "/proxy-sub/"
    originalApiBaseUrl := "https://api.example/"
    originalSubscriptionApiUrl := "https://sub.example/" }

/-- Shared fixture: sample request options. -/
def sampleOpts : ReqOptions :=
  { method := "GET", endpoint := "/items", body := none, headers := []
    tokenType := "tenant", featureArea := "reports", tenantId := none
    skipAuth := false, retries := none, idempotencyKey := none }

/-- The `!token` short-circuit of the auth phase: with `skipAuth` off and a
falsy token, the pipeline returns status 0 / `Auth Failed`, appends exactly
one (redacted) entry, updates the cache, and issues no fetch. -/
theorem authFailedRun (cfg : ApiConfig) (rid : String) (opts : ReqOptions)
    (env : Nat → FetchOutcome) (fuel : Nat) (c0 : String → Option LogEntry)
    (s0 : List LogEntry) (tok : Option String)
    (hskip : opts.skipAuth = false) (htok : tokenFalsy tok = true) :
    ∃ r, (apiRequestModel cfg rid opts (.got tok) env fuel c0 s0).2 = some r ∧
      r.success = false ∧ r.status = 0 ∧ r.statusText = "Auth Failed" ∧
      r.error = some "Failed to obtain access token" ∧
      (apiRequestModel cfg rid opts (.got tok) env fuel c0 s0).1.fetches = 0 ∧
      (apiRequestModel cfg rid opts (.got tok) env fuel c0 s0).1.sleepsMs = [] ∧
      (apiRequestModel cfg rid opts (.got tok) env fuel c0 s0).1.store
        = s0 ++ [redactEntry r.logEntry] ∧
      (apiRequestModel cfg rid opts (.got tok) env fuel c0 s0).1.cache
        = Function.update c0 opts.featureArea (some r.logEntry) ∧
      r.logEntry.status = 0 ∧ r.logEntry.statusText = "Auth Failed" ∧
      r.logEntry.error = some "Failed to obtain access token" := by
  simp only [apiRequestModel, hskip, htok, Bool.false_eq_true, if_false,
    if_true, recordCall, logApiCall]
  refine ⟨_, rfl, ?_, ?_, ?_, ?_, ?_, ?_, ?_, ?_, ?_, ?_, ?_⟩ <;>
    first | rfl | trivial

/-- The catch branch of the auth phase: with `skipAuth` off and `getToken`
throwing, the pipeline returns status 0 / `Auth Error` carrying the thrown
message, appends exactly one entry, updates the cache, and issues no
fetch. -/
theorem authErrorRun (cfg : ApiConfig) (rid : String) (opts : ReqOptions)
    (env : Nat → FetchOutcome) (fuel : Nat) (c0 : String → Option LogEntry)
    (s0 : List LogEntry) (msg : String)
    (hskip : opts.skipAuth = false) :
    ∃ r, (apiRequestModel cfg rid opts (.threw msg) env fuel c0 s0).2
        = some r ∧
      r.success = false ∧ r.status = 0 ∧ r.statusText = "Auth Error" ∧
      r.error = some msg ∧
      (apiRequestModel cfg rid opts (.threw msg) env fuel c0 s0).1.fetches
        = 0 ∧
      (apiRequestModel cfg rid opts (.threw msg) env fuel c0 s0).1.sleepsMs
        = [] ∧
      (apiRequestModel cfg rid opts (.threw msg) env fuel c0 s0).1.store
        = s0 ++ [redactEntry r.logEntry] ∧
      (apiRequestModel cfg rid opts (.threw msg) env fuel c0 s0).1.cache
        = Function.update c0 opts.featureArea (some r.logEntry) ∧
      r.logEntry.status = 0 ∧ r.logEntry.statusText = "Auth Error" ∧
      r.logEntry.error = some msg := by
  simp only [apiRequestModel, hskip, Bool.false_eq_true, if_false]
  refine ⟨_, rfl, ?_, ?_, ?_, ?_, ?_, ?_, ?_, ?_, ?_, ?_, ?_⟩ <;>
    first | rfl | trivial

/-- Claim C5: without `skipAuth`, when no bearer token can be obtained the
pipeline short-circuits: unsuccessful result with status 0 and statusText
`Auth Failed` (or `Auth Error` when an exception occurred), the outcome is
logged (one entry appended, cache updated), and no fetch reaches the
resource endpoint. -/
theorem C5_auth_short_circuit (cfg : ApiConfig) (rid : String)
    (opts : ReqOptions) (env : Nat → FetchOutcome) (fuel : Nat)
    (c0 : String → Option LogEntry) (s0 : List LogEntry)
    (hskip : opts.skipAuth = false) :
    (∀ tok, tokenFalsy tok = true →
      ∃ r, (apiRequestModel cfg rid opts (.got tok) env fuel c0 s0).2
          = some r ∧
        r.success = false ∧ r.status = 0 ∧ r.statusText = "Auth Failed" ∧
        (apiRequestModel cfg rid opts (.got tok) env fuel c0 s0).1.fetches
          = 0 ∧
        (apiRequestModel cfg rid opts (.got tok) env fuel c0 s0).1.store
          = s0 ++ [redactEntry r.logEntry] ∧
        (apiRequestModel cfg rid opts (.got tok) env fuel c0 s0).1.cache
          = Function.update c0 opts.featureArea (some r.logEntry)) ∧
    (∀ msg,
      ∃ r, (apiRequestModel cfg rid opts (.threw msg) env fuel c0 s0).2
          = some r ∧
        r.success = false ∧ r.status = 0 ∧ r.statusText = "Auth Error" ∧
        r.error = some msg ∧
        (apiRequestModel cfg rid opts (.threw msg) env fuel c0 s0).1.fetches
          = 0 ∧
        (apiRequestModel cfg rid opts (.threw msg) env fuel c0 s0).1.store
          = s0 ++ [redactEntry r.logEntry] ∧
        (apiRequestModel cfg rid opts (.threw msg) env fuel c0 s0).1.cache
          = Function.update c0 opts.featureArea (some r.logEntry)) := by
  constructor
  · intro tok htok
    obtain ⟨r, h1, h2, h3, h4, _, h6, _, h8, h9, _⟩ :=
      authFailedRun cfg rid opts env fuel c0 s0 tok hskip htok
    exact ⟨r, h1, h2, h3, h4, h6, h8, h9⟩
  · intro msg
    obtain ⟨r, h1, h2, h3, h4, h5, h6, _, h8, h9, _⟩ :=
      authErrorRun cfg rid opts env fuel c0 s0 msg hskip
    exact ⟨r, h1, h2, h3, h4, h5, h6, h8, h9⟩

/-- Witness for C5: a concrete run with a null token issues no fetch,
persists exactly one entry, and reports `Auth Failed`. -/
theorem C5_auth_short_circuit_witness :
    (apiRequestModel sampleCfg "r1" sampleOpts (.got none)
      (fun _ => .corsFail) 5 (fun _ => none) []).1.fetches = 0 ∧
    (apiRequestModel sampleCfg "r1" sampleOpts (.got none)
      (fun _ => .corsFail) 5 (fun _ => none) []).1.store.length = 1 ∧
    ((apiRequestModel sampleCfg "r1" sampleOpts (.got none)
      (fun _ => .corsFail) 5 (fun _ => none) []).2.map
        fun r => r.statusText) = some "Auth Failed" := by
  obtain ⟨r, h1, _, _, h4, h5, h6, h7⟩ :=
    (C5_auth_short_circuit sampleCfg "r1" sampleOpts (fun _ => .corsFail) 5
      (fun _ => none) [] (by rfl)).1 none (by rfl)
  refine ⟨h5, ?_, ?_⟩
  · rw [h6]; rfl
  · rw [h1]
    simp [h4]

/-- Retry step of the loop: a retryable status with attempts remaining
appends one (redacted) log entry, records the backoff sleep
`RETRY_BASE_DELAY_MS * 2 ^ attempt`, and re-enters the loop with the
attempt counter incremented. -/
theorem runLoop_retry_step (rid : String) (opts : ReqOptions)
    (logUrl : String) (hdrs : List (String × String))
    (env : Nat → FetchOutcome) (fuel k a mr : Nat) (lastErr : Option String)
    (tr : RunTrace) (st : Nat) (stText : String)
    (rhs : List (String × String)) (rbody : Option BodyRep)
    (henv : env k = .resp st stText rhs rbody)
    (hret : RETRYABLE_STATUS_CODES.contains st = true)
    (ha : a < mr) :
    ∃ tr', runLoop rid opts logUrl hdrs env (fuel + 1) k a mr lastErr tr
        = runLoop rid opts logUrl hdrs env fuel (k + 1) (a + 1) mr lastErr
            tr' ∧
      tr'.sleepsMs = tr.sleepsMs ++ [RETRY_BASE_DELAY_MS * 2 ^ a] ∧
      tr'.fetches = tr.fetches + 1 ∧
      ∃ le, tr'.store = tr.store ++ [redactEntry le] ∧ le.status = st ∧
        tr'.cache = Function.update tr.cache opts.featureArea (some le) := by
  have hamr : ¬ a > mr := by omega
  have ha2 : decide (a < mr) = true := by simpa using ha
  simp only [runLoop, hamr, if_false, henv, hret, ha2,
    Bool.and_self, if_true, recordCall, logApiCall]
  exact ⟨_, rfl, rfl, rfl, _, rfl, rfl, rfl⟩

/-- Immediate-return step of the loop: a response whose status is not
retryable (or with no attempts remaining) appends one (redacted) log entry
and returns at once — no sleep — with `success = response.ok`. -/
theorem runLoop_return_step (rid : String) (opts : ReqOptions)
    (logUrl : String) (hdrs : List (String × String))
    (env : Nat → FetchOutcome) (fuel k a mr : Nat) (lastErr : Option String)
    (tr : RunTrace) (st : Nat) (stText : String)
    (rhs : List (String × String)) (rbody : Option BodyRep)
    (henv : env k = .resp st stText rhs rbody)
    (hcond : (RETRYABLE_STATUS_CODES.contains st && decide (a < mr)) = false)
    (ha : a ≤ mr) :
    ∃ r, (runLoop rid opts logUrl hdrs env (fuel + 1) k a mr lastErr tr).2
        = some r ∧
      r.status = st ∧ r.statusText = stText ∧ r.success = respOk st ∧
      (runLoop rid opts logUrl hdrs env (fuel + 1) k a mr lastErr tr).1.sleepsMs
        = tr.sleepsMs ∧
      (runLoop rid opts logUrl hdrs env (fuel + 1) k a mr lastErr tr).1.fetches
        = tr.fetches + 1 ∧
      (runLoop rid opts logUrl hdrs env (fuel + 1) k a mr lastErr tr).1.store
        = tr.store ++ [redactEntry r.logEntry] ∧
      (runLoop rid opts logUrl hdrs env (fuel + 1) k a mr lastErr tr).1.cache
        = Function.update tr.cache opts.featureArea (some r.logEntry) ∧
      r.logEntry.status = st ∧ r.logEntry.requestHeaders = hdrs := by
  have hamr : ¬ a > mr := by omega
  simp only [runLoop, hamr, if_false, henv, hcond, recordCall, logApiCall]
  refine ⟨_, rfl, ?_, ?_, ?_, ?_, ?_, ?_, ?_, ?_, ?_⟩ <;>
    first | rfl | trivial

/-- Claim C4: a retryable status `{429,500,502,503,504}` with attempts
remaining sleeps `1000ms * 2^attempt` and retries; any other status
returns immediately with `success = (status in 2xx)` and no sleep; and with
`retries = 3` against an endpoint answering 503 on every attempt, exactly
4 fetches are made, the backoff sleeps are `[1000, 2000, 4000]` ms, and the
final result is unsuccessful with status 503. -/
theorem C4_retry_backoff :
    (∀ (rid : String) (opts : ReqOptions) (logUrl : String)
      (hdrs : List (String × String)) (env : Nat → FetchOutcome)
      (fuel k a mr : Nat) (lastErr : Option String) (tr : RunTrace)
      (st : Nat) (stText : String) (rhs : List (String × String))
      (rbody : Option BodyRep),
      env k = .resp st stText rhs rbody →
      RETRYABLE_STATUS_CODES.contains st = true → a < mr →
      ∃ tr', runLoop rid opts logUrl hdrs env (fuel + 1) k a mr lastErr tr
          = runLoop rid opts logUrl hdrs env fuel (k + 1) (a + 1) mr lastErr
              tr' ∧
        tr'.sleepsMs = tr.sleepsMs ++ [RETRY_BASE_DELAY_MS * 2 ^ a]) ∧
    (∀ (rid : String) (opts : ReqOptions) (logUrl : String)
      (hdrs : List (String × String)) (env : Nat → FetchOutcome)
      (fuel k a mr : Nat) (lastErr : Option String) (tr : RunTrace)
      (st : Nat) (stText : String) (rhs : List (String × String))
      (rbody : Option BodyRep),
      env k = .resp st stText rhs rbody →
      (RETRYABLE_STATUS_CODES.contains st && decide (a < mr)) = false →
      a ≤ mr →
      ∃ r, (runLoop rid opts logUrl hdrs env (fuel + 1) k a mr lastErr
              tr).2 = some r ∧
        r.status = st ∧ r.success = respOk st ∧
        (runLoop rid opts logUrl hdrs env (fuel + 1) k a mr lastErr
            tr).1.sleepsMs = tr.sleepsMs) ∧
    ((apiRequestModel sampleCfg "r1" { sampleOpts with retries := some 3 }
        (.got (some "tok")) (fun _ => .resp 503 "Service Unavailable" [] none)
        4 (fun _ => none) []).1.fetches = 4 ∧
      (apiRequestModel sampleCfg "r1" { sampleOpts with retries := some 3 }
        (.got (some "tok")) (fun _ => .resp 503 "Service Unavailable" [] none)
        4 (fun _ => none) []).1.sleepsMs = [1000, 2000, 4000] ∧
      ((apiRequestModel sampleCfg "r1" { sampleOpts with retries := some 3 }
        (.got (some "tok")) (fun _ => .resp 503 "Service Unavailable" [] none)
        4 (fun _ => none) []).2.map fun r => (r.success, r.status))
        = some (false, 503)) := by
  refine ⟨?_, ?_, by rfl, by rfl, by rfl⟩
  · intro rid opts logUrl hdrs env fuel k a mr lastErr tr st stText rhs
      rbody henv hret ha
    obtain ⟨tr', heq, hsl, _, _⟩ := runLoop_retry_step rid opts logUrl hdrs
      env fuel k a mr lastErr tr st stText rhs rbody henv hret ha
    exact ⟨tr', heq, hsl⟩
  · intro rid opts logUrl hdrs env fuel k a mr lastErr tr st stText rhs
      rbody henv hcond ha
    obtain ⟨r, h1, h2, _, h4, h5, _⟩ := runLoop_return_step rid opts logUrl
      hdrs env fuel k a mr lastErr tr st stText rhs rbody henv hcond ha
    exact ⟨r, h1, h2, h4, h5⟩

/-- Witness for C4: one concrete retryable step (503 at attempt 0 of max 1)
sleeps exactly 1000 ms, and the follow-up attempt (no attempts remaining)
adds no further sleep. -/
theorem C4_retry_backoff_witness :
    (runLoop "r" sampleOpts "u" []
      (fun _ => .resp 503 "Service Unavailable" [] none) (1 + 1) 0 0 1 none
      { store := [], cache := fun _ => none, sleepsMs := [], fetches := 0
        }).1.sleepsMs = [1000] := by
  obtain ⟨tr', heq, hsl⟩ := C4_retry_backoff.1 "r" sampleOpts "u" []
    (fun _ => .resp 503 "Service Unavailable" [] none) 1 0 0 1 none
    { store := [], cache := fun _ => none, sleepsMs := [], fetches := 0 }
    503 "Service Unavailable" [] none rfl (by decide) (by decide)
  rw [heq]
  obtain ⟨r, _, _, _, hsleeps⟩ := C4_retry_backoff.2.1 "r" sampleOpts "u" []
    (fun _ => .resp 503 "Service Unavailable" [] none) 0 1 1 1 none tr'
    503 "Service Unavailable" [] none rfl (by decide) (by decide)
  rw [hsleeps, hsl]
  rfl

/-- With no valid cached token and no refresh in flight, the first caller
becomes the owner: it sets the in-flight marker and starts the one fetch. -/
theorem startCaller_first (now : Nat) (s : TMState)
    (hv : isTokenValid now s.cached = false) (hm : s.marker = false) :
    startCaller now s =
      ({ s with marker := true, fetchesStarted := s.fetchesStarted + 1 },
       .waitingOwner) := by
  match hc : s.cached with
  | none => simp [startCaller, hc, hm]
  | some t =>
    rw [hc] at hv
    simp [startCaller, hc, hv, hm]

/-- While a refresh is in flight (and the cache is still invalid), a
starting caller changes nothing and joins the shared refresh. -/
theorem startCaller_joining (now : Nat) (s : TMState)
    (hv : isTokenValid now s.cached = false) (hm : s.marker = true) :
    startCaller now s = (s, .waitingShared) := by
  match hc : s.cached with
  | none => simp [startCaller, hc, hm]
  | some t =>
    rw [hc] at hv
    simp [startCaller, hc, hv, hm]

/-- Any number of callers arriving during an in-flight refresh all join it
and leave the state untouched. -/
theorem startN_joining (now : Nat) (n : Nat) (s : TMState)
    (hv : isTokenValid now s.cached = false) (hm : s.marker = true) :
    startN now n s = (s, List.replicate n .waitingShared) := by
  induction n with
  | zero => rfl
  | succ m ih =>
    simp only [startN, startCaller_joining now s hv hm, ih,
      List.replicate_succ]

/-- Claim C2: when `n ≥ 1` callers invoke `getToken` for one token type
while no valid token is cached and no refresh is in flight, exactly one
`fetchToken` is started; every caller's awaited outcome is the same shared
value `tokenResultOf r` (the bearer string on success, `null` on failure,
the same exception if the refresh rejects); and the in-flight marker is
cleared once the shared result settles, whether it resolves or throws. -/
theorem C2_single_flight (now nowDone : Nat) (s : TMState) (n : Nat)
    (r : Except String (Option TokenData))
    (hv : isTokenValid now s.cached = false) (hm : s.marker = false)
    (hn : 1 ≤ n) :
    (startN now n s).1.fetchesStarted = s.fetchesStarted + 1 ∧
    (startN now n s).1.marker = true ∧
    (startN now n s).2.length = n ∧
    (∀ p ∈ (startN now n s).2, resolvePhase r p = tokenResultOf r) ∧
    (resolveState (startN now n s).1 nowDone r).marker = false := by
  obtain ⟨m, rfl⟩ : ∃ m, n = m + 1 := ⟨n - 1, by omega⟩
  have hfirst := startCaller_first now s hv hm
  have hrest := startN_joining now m
    { s with marker := true, fetchesStarted := s.fetchesStarted + 1 }
    (by simpa using hv) rfl
  have hout : startN now (m + 1) s =
      ({ s with marker := true, fetchesStarted := s.fetchesStarted + 1 },
       .waitingOwner :: List.replicate m .waitingShared) := by
    simp only [startN, hfirst, hrest]
  refine ⟨by rw [hout], by rw [hout], by rw [hout]; simp, ?_, ?_⟩
  · intro p hp
    rw [hout] at hp
    rcases List.mem_cons.mp hp with h | h
    · subst h; rfl
    · rw [List.eq_of_mem_replicate h]; rfl
  · rw [hout]
    cases r <;> rfl

/-- Witness for C2: three concrete concurrent callers over an empty cache
produce one fetch, all three share the successful bearer, and the marker
ends cleared. -/
theorem C2_single_flight_witness :
    (startN 0 3 { cached := none, lastRefresh := none, marker := false
                  fetchesStarted := 0 }).1.fetchesStarted = 0 + 1 ∧
    (resolveState
      (startN 0 3 { cached := none, lastRefresh := none, marker := false
                    fetchesStarted := 0 }).1 7
      (.ok (some ⟨"tok-abc", 100000, none, none, "Bearer"⟩))).marker
      = false ∧
    ((startN 0 3 { cached := none, lastRefresh := none, marker := false
                   fetchesStarted := 0 }).2.map
      (resolvePhase (.ok (some ⟨"tok-abc", 100000, none, none, "Bearer"⟩))))
      = List.replicate 3 (.ok (some "tok-abc")) := by
  have h := C2_single_flight 0 7
    { cached := none, lastRefresh := none, marker := false
      fetchesStarted := 0 } 3
    (.ok (some ⟨"tok-abc", 100000, none, none, "Bearer"⟩))
    (by rfl) (by rfl) (by decide)
  exact ⟨h.1, h.2.2.2.2, by rfl⟩

/-- A sensitive key is redacted wholesale, whatever its value. -/
theorem maskEntry_of_sensitive (k : String) (v : Json)
    (hk : sensitiveKey k = true) : maskEntry k v = .str REDACTED := by
  cases v <;> simp [maskEntry, hk]

mutual
/-- Re-masking a masked entry value changes nothing. -/
theorem maskEntry_idem (k : String) (v : Json) :
    maskEntry k (maskEntry k v) = maskEntry k v := by
  by_cases hk : sensitiveKey k = true
  · rw [maskEntry_of_sensitive k v hk, maskEntry_of_sensitive k _ hk]
  · cases v with
    | obj kvs => simp [maskEntry, hk, maskList_idem kvs]
    | arr l => simp [maskEntry, hk, maskList_maskArr 0 l]
    | str s =>
      by_cases hs : looksLikeSecret s = true <;> simp [maskEntry, hk, hs]
    | num n => simp [maskEntry, hk]
    | bool b => simp [maskEntry, hk]
    | null => simp [maskEntry, hk]

/-- Re-masking a masked entry list changes nothing. -/
theorem maskList_idem : ∀ l, maskList (maskList l) = maskList l
  | [] => rfl
  | (k, v) :: rest => by
    simp [maskList, maskEntry_idem k v, maskList_idem rest]

/-- Masking the index-keyed entries produced from an array changes
nothing further. -/
theorem maskList_maskArr (i : Nat) : ∀ l, maskList (maskArr i l) = maskArr i l
  | [] => rfl
  | v :: rest => by
    simp [maskArr, maskList, maskEntry_idem (toString i) v,
      maskList_maskArr (i + 1) rest]
end

/-- Re-masking an already-masked JSON value changes nothing. -/
theorem maskObject_idem (j : Json) : maskObject (maskObject j) = maskObject j := by
  cases j with
  | obj kvs => simp [maskObject, maskList_idem]
  | arr l => simp [maskObject, maskList_maskArr]
  | str s => simp [maskObject, maskList_idem]
  | num n => rfl
  | bool b => rfl
  | null => rfl

/-- Re-masking already-masked headers changes nothing. -/
theorem maskHeaders_idem (hs : List (String × String)) :
    maskHeaders (maskHeaders hs) = maskHeaders hs := by
  unfold maskHeaders
  rw [List.map_map]
  apply List.map_congr_left
  intro kv _
  by_cases h : SENSITIVE_HEADERS.contains (strLower kv.1) = true <;>
      simp [Function.comp, h] <;> intro hmem <;> simp [hmem]

/-- Re-masking a masked body changes nothing, on both branches of
`maskJsonString`: JSON bodies via `maskObject`, non-JSON bodies via
`maskStringSecrets`. -/
theorem maskBody_idem (b : BodyRep) : maskBody (maskBody b) = maskBody b := by
  cases b with
  | jsonVal j => simp [maskBody, maskObject_idem]
  | rawStr s => simp [maskBody, maskStringSecrets_idem]

/-- Claim C9: redaction is idempotent — re-applying `maskHeaders` to
already-masked headers, `maskObject` to an already-masked body value
(the path of `maskJsonString` on JSON bodies), or `maskStringSecrets`
(its fallback on non-JSON bodies, the five regex replaces) to an
already-masked string, returns the same value; hence `maskJsonString`
(modelled by `maskBody`) is idempotent on every body, and the redaction
marker is stable under re-redaction. -/
theorem C9_redaction_idempotent :
    (∀ hs, maskHeaders (maskHeaders hs) = maskHeaders hs) ∧
    (∀ j, maskObject (maskObject j) = maskObject j) ∧
    (∀ s, maskStringSecrets (maskStringSecrets s) = maskStringSecrets s) ∧
    (∀ b, maskBody (maskBody b) = maskBody b) :=
  ⟨maskHeaders_idem, maskObject_idem, maskStringSecrets_idem, maskBody_idem⟩

mutual
/-- Every entry below a masked entry value whose key is sensitive carries
the redaction marker. -/
theorem maskEntry_sens_marked (k : String) (v : Json) :
    ∀ k2 w, (k2, w) ∈ subEntries (maskEntry k v) → sensitiveKey k2 = true →
      w = .str REDACTED := by
  intro k2 w hmem hk2
  by_cases hk : sensitiveKey k = true
  · rw [maskEntry_of_sensitive k v hk] at hmem
    simp [subEntries] at hmem
  · cases v with
    | obj kvs =>
      simp only [maskEntry, hk, Bool.false_eq_true, if_false] at hmem
      exact maskList_sens_marked kvs k2 w (by simpa [subEntries] using hmem)
        hk2
    | arr l =>
      simp only [maskEntry, hk, Bool.false_eq_true, if_false] at hmem
      exact maskArr_sens_marked 0 l k2 w (by simpa [subEntries] using hmem)
        hk2
    | str s =>
      by_cases hs : looksLikeSecret s = true <;>
        simp [maskEntry, hk, hs, subEntries] at hmem
    | num n => simp [maskEntry, hk, subEntries] at hmem
    | bool b => simp [maskEntry, hk, subEntries] at hmem
    | null => simp [maskEntry, hk, subEntries] at hmem

/-- Every sensitive-keyed entry below a masked entry list carries the
marker. -/
theorem maskList_sens_marked : ∀ l, ∀ k2 w,
    (k2, w) ∈ subEntriesL (maskList l) → sensitiveKey k2 = true →
      w = .str REDACTED
  | [] => by intro k2 w hmem _; simp [maskList, subEntriesL] at hmem
  | (k, v) :: rest => by
    intro k2 w hmem hk2
    simp only [maskList, subEntriesL, List.mem_cons, List.mem_append]
      at hmem
    rcases hmem with h | h | h
    · rw [Prod.mk.injEq] at h
      obtain ⟨hk2eq, hweq⟩ := h
      subst hk2eq
      rw [hweq]
      exact maskEntry_of_sensitive _ v hk2
    · exact maskEntry_sens_marked k v k2 w h hk2
    · exact maskList_sens_marked rest k2 w h hk2

/-- Every sensitive-keyed entry below masked array entries carries the
marker. -/
theorem maskArr_sens_marked (i : Nat) : ∀ l, ∀ k2 w,
    (k2, w) ∈ subEntriesL (maskArr i l) → sensitiveKey k2 = true →
      w = .str REDACTED
  | [] => by intro k2 w hmem _; simp [maskArr, subEntriesL] at hmem
  | v :: rest => by
    intro k2 w hmem hk2
    simp only [maskArr, subEntriesL, List.mem_cons, List.mem_append]
      at hmem
    rcases hmem with h | h | h
    · rw [Prod.mk.injEq] at h
      obtain ⟨hk2eq, hweq⟩ := h
      subst hk2eq
      rw [hweq]
      exact maskEntry_of_sensitive _ v hk2
    · exact maskEntry_sens_marked (toString i) v k2 w h hk2
    · exact maskArr_sens_marked (i + 1) rest k2 w h hk2
end

/-- Every sensitive-keyed entry anywhere inside a masked object carries
the redaction marker. -/
theorem maskObject_sens_marked (j : Json) :
    ∀ k w, (k, w) ∈ subEntries (maskObject j) → sensitiveKey k = true →
      w = .str REDACTED := by
  intro k w hmem hk
  cases j with
  | obj kvs =>
    exact maskList_sens_marked kvs k w (by simpa [maskObject, subEntries]
      using hmem) hk
  | arr l =>
    exact maskArr_sens_marked 0 l k w (by simpa [maskObject, subEntries]
      using hmem) hk
  | str s =>
    exact maskList_sens_marked (strEntries s) k w
      (by simpa [maskObject, subEntries] using hmem) hk
  | num n => simp [maskObject, subEntries, subEntriesL] at hmem
  | bool b => simp [maskObject, subEntries, subEntriesL] at hmem
  | null => simp [maskObject, subEntries, subEntriesL] at hmem

mutual
/-- Provenance of string leaves of a masked entry value: each is the
marker, or the entry's own kept string value (non-sensitive key), or a
kept string from a deeper non-sensitive entry. -/
theorem maskEntry_strValues (k : String) (v : Json) :
    ∀ s2, s2 ∈ strValues (maskEntry k v) → s2 = REDACTED ∨
      (sensitiveKey k = false ∧ (v = .str s2 ∨
        ∃ k2, (k2, Json.str s2) ∈ subEntries v ∧ sensitiveKey k2 = false))
    := by
  intro s2 hmem
  by_cases hk : sensitiveKey k = true
  · rw [maskEntry_of_sensitive k v hk] at hmem
    simp [strValues] at hmem
    exact Or.inl hmem
  · have hkf : sensitiveKey k = false := by simpa using hk
    cases v with
    | obj kvs =>
      simp only [maskEntry, hk, Bool.false_eq_true, if_false] at hmem
      rcases maskList_strValues kvs s2 (by simpa [strValues] using hmem)
        with h | ⟨k2, hm, hk2⟩
      · exact Or.inl h
      · exact Or.inr ⟨hkf, Or.inr ⟨k2, by simpa [subEntries] using hm, hk2⟩⟩
    | arr l =>
      simp only [maskEntry, hk, Bool.false_eq_true, if_false] at hmem
      rcases maskArr_strValues 0 l s2 (by simpa [strValues] using hmem)
        with h | ⟨k2, hm, hk2⟩
      · exact Or.inl h
      · exact Or.inr ⟨hkf, Or.inr ⟨k2, by simpa [subEntries] using hm, hk2⟩⟩
    | str s =>
      by_cases hs : looksLikeSecret s = true
      · simp [maskEntry, hk, hs, strValues] at hmem
        exact Or.inl hmem
      · simp [maskEntry, hk, hs, strValues] at hmem
        exact Or.inr ⟨hkf, Or.inl (by rw [hmem])⟩
    | num n => simp [maskEntry, hk, strValues] at hmem
    | bool b => simp [maskEntry, hk, strValues] at hmem
    | null => simp [maskEntry, hk, strValues] at hmem

/-- Provenance of string leaves below a masked entry list. -/
theorem maskList_strValues : ∀ l, ∀ s2, s2 ∈ strValuesL (maskList l) →
    s2 = REDACTED ∨
      ∃ k2, (k2, Json.str s2) ∈ subEntriesL l ∧ sensitiveKey k2 = false
  | [] => by intro s2 hmem; simp [maskList, strValuesL] at hmem
  | (k, v) :: rest => by
    intro s2 hmem
    simp only [maskList, strValuesL, List.mem_append] at hmem
    rcases hmem with h | h
    · rcases maskEntry_strValues k v s2 h with h1 | ⟨hkf, h2 | ⟨k2, hm, hk2⟩⟩
      · exact Or.inl h1
      · refine Or.inr ⟨k, ?_, hkf⟩
        rw [← h2]
        simp [subEntriesL]
      · refine Or.inr ⟨k2, ?_, hk2⟩
        simp only [subEntriesL, List.mem_cons, List.mem_append]
        exact Or.inr (Or.inl hm)
    · rcases maskList_strValues rest s2 h with h1 | ⟨k2, hm, hk2⟩
      · exact Or.inl h1
      · refine Or.inr ⟨k2, ?_, hk2⟩
        simp only [subEntriesL, List.mem_cons, List.mem_append]
        exact Or.inr (Or.inr hm)

/-- Provenance of string leaves below masked array entries. -/
theorem maskArr_strValues (i : Nat) : ∀ l, ∀ s2,
    s2 ∈ strValuesL (maskArr i l) → s2 = REDACTED ∨
      ∃ k2, (k2, Json.str s2) ∈ subEntriesA i l ∧ sensitiveKey k2 = false
  | [] => by intro s2 hmem; simp [maskArr, strValuesL] at hmem
  | v :: rest => by
    intro s2 hmem
    simp only [maskArr, strValuesL, List.mem_append] at hmem
    rcases hmem with h | h
    · rcases maskEntry_strValues (toString i) v s2 h with
        h1 | ⟨hkf, h2 | ⟨k2, hm, hk2⟩⟩
      · exact Or.inl h1
      · refine Or.inr ⟨toString i, ?_, hkf⟩
        rw [← h2]
        simp [subEntriesA]
      · refine Or.inr ⟨k2, ?_, hk2⟩
        simp only [subEntriesA, List.mem_cons, List.mem_append]
        exact Or.inr (Or.inl hm)
    · rcases maskArr_strValues (i + 1) rest s2 h with h1 | ⟨k2, hm, hk2⟩
      · exact Or.inl h1
      · refine Or.inr ⟨k2, ?_, hk2⟩
        simp only [subEntriesA, List.mem_cons, List.mem_append]
        exact Or.inr (Or.inr hm)
end

/-- Looking up the key just assigned by `setHeader` yields the assigned
value. -/
theorem lookupHeader_setHeader (hs : List (String × String)) (k v : String) :
    lookupHeader (setHeader hs k v) k = some v := by
  unfold setHeader
  by_cases h : hs.any (fun p => p.1 = k) = true
  · simp only [h, if_true]
    induction hs with
    | nil => simp at h
    | cons kv t ih =>
      by_cases hk : kv.1 = k
      · simp [lookupHeader, List.find?, hk]
      · have h' : t.any (fun p => p.1 = k) = true := by
          simp only [List.any_cons, hk] at h
          simpa using h
        simpa [lookupHeader, List.find?, hk] using ih h'
  · have h2 : hs.any (fun p => p.1 = k) = false := by
      rw [Bool.eq_false_iff]
      exact h
    simp only [h2, Bool.false_eq_true, if_false]
    unfold lookupHeader
    rw [List.find?_append]
    have hnone : hs.find? (fun p => p.1 = k) = none := by
      rw [List.find?_eq_none]
      intro p hp
      have := List.any_eq_false.mp h2 p hp
      simpa using this
    simp [hnone, List.find?]

/-- `maskHeaders` preserves keys, so a lookup afterwards is the original
lookup with the value conditionally replaced by the marker. -/
theorem lookupHeader_maskHeaders (hs : List (String × String)) (k : String) :
    lookupHeader (maskHeaders hs) k
      = (lookupHeader hs k).map
          (fun v =>
            if SENSITIVE_HEADERS.contains (strLower k) then REDACTED else v) := by
  induction hs with
  | nil => rfl
  | cons kv t ih =>
    by_cases h : kv.1 = k
    · subst h
      simp [lookupHeader, maskHeaders, List.find?]
    · simpa [lookupHeader, maskHeaders, List.find?, h] using ih

/-- CORS/network classification: the loop returns immediately with status
0, appending exactly one (redacted) entry and no sleep. -/
theorem runLoop_cors_step (rid : String) (opts : ReqOptions)
    (logUrl : String) (hdrs : List (String × String))
    (env : Nat → FetchOutcome) (fuel k a mr : Nat) (lastErr : Option String)
    (tr : RunTrace) (henv : env k = .corsFail) (ha : a ≤ mr) :
    ∃ r, (runLoop rid opts logUrl hdrs env (fuel + 1) k a mr lastErr tr).2
        = some r ∧
      r.success = false ∧ r.status = 0 ∧
      r.statusText = "CORS/Network Error" ∧ r.error = some corsErrorMsg ∧
      (runLoop rid opts logUrl hdrs env (fuel + 1) k a mr lastErr
          tr).1.sleepsMs = tr.sleepsMs ∧
      (runLoop rid opts logUrl hdrs env (fuel + 1) k a mr lastErr
          tr).1.fetches = tr.fetches + 1 ∧
      (runLoop rid opts logUrl hdrs env (fuel + 1) k a mr lastErr
          tr).1.store = tr.store ++ [redactEntry r.logEntry] ∧
      (runLoop rid opts logUrl hdrs env (fuel + 1) k a mr lastErr
          tr).1.cache
        = Function.update tr.cache opts.featureArea (some r.logEntry) := by
  have hamr : ¬ a > mr := by omega
  simp only [runLoop, hamr, if_false, henv, recordCall, logApiCall]
  refine ⟨_, rfl, ?_, ?_, ?_, ?_, ?_, ?_, ?_, ?_⟩ <;> first | rfl | trivial

/-- With `skipAuth` off and a truthy bearer, `apiRequest` reduces to the
retry loop under headers extended with the raw `Authorization` header. -/
theorem apiRequest_auth_ok (cfg : ApiConfig) (rid : String)
    (opts : ReqOptions) (env : Nat → FetchOutcome) (fuel : Nat)
    (c0 : String → Option LogEntry) (s0 : List LogEntry) (t : String)
    (hskip : opts.skipAuth = false) (ht : ¬ t = "") :
    apiRequestModel cfg rid opts (.got (some t)) env fuel c0 s0
      = runLoop rid opts
          (if opts.endpoint.startsWith "http" then opts.endpoint
           else getOriginalBaseUrl cfg opts.tokenType ++ opts.endpoint)
          (setHeader (buildBaseHeaders opts) "Authorization" ("Bearer " ++ t))
          env fuel 0 0 (opts.retries.getD DEFAULT_MAX_RETRIES) none
          { store := s0, cache := c0, sleepsMs := [], fetches := 0 } := by
  have htf : tokenFalsy (some t) = false := by simp [tokenFalsy, ht]
  simp only [apiRequestModel, hskip, Bool.false_eq_true, if_false, htf,
    Option.getD_some]

/-- Against an endpoint answering 503 on every attempt, a loop entered at
attempt `a` with `mr = a + d` performs `d + 1` fetches, appends `d + 1`
log entries (one per attempt), leaves the latest-call cache on the final
entry, and returns an unsuccessful 503 result. -/
theorem runLoop_all503_counts (rid : String) (opts : ReqOptions)
    (logUrl : String) (hdrs : List (String × String)) (stText : String)
    (rhs : List (String × String)) (rbody : Option BodyRep) :
    ∀ (d k a mr : Nat) (lastErr : Option String) (tr : RunTrace),
      mr = a + d →
      ∃ r, (runLoop rid opts logUrl hdrs
              (fun _ => .resp 503 stText rhs rbody) (d + 1) k a mr lastErr
              tr).2 = some r ∧
        r.status = 503 ∧ r.success = false ∧
        (runLoop rid opts logUrl hdrs
            (fun _ => .resp 503 stText rhs rbody) (d + 1) k a mr lastErr
            tr).1.store.length = tr.store.length + (d + 1) ∧
        (runLoop rid opts logUrl hdrs
            (fun _ => .resp 503 stText rhs rbody) (d + 1) k a mr lastErr
            tr).1.fetches = tr.fetches + (d + 1) ∧
        (runLoop rid opts logUrl hdrs
            (fun _ => .resp 503 stText rhs rbody) (d + 1) k a mr lastErr
            tr).1.cache opts.featureArea = some r.logEntry := by
  intro d
  induction d with
  | zero =>
    intro k a mr lastErr tr hmr
    have hcond :
        (RETRYABLE_STATUS_CODES.contains 503 && decide (a < mr)) = false := by
      subst hmr
      simp
    obtain ⟨r, h1, h2, _, h4, _, h6, h7, h8, _, _⟩ :=
      runLoop_return_step rid opts logUrl hdrs
        (fun _ => .resp 503 stText rhs rbody) 0 k a mr lastErr tr 503
        stText rhs rbody rfl hcond (by omega)
    refine ⟨r, h1, h2, by rw [h4]; rfl, by rw [h7]; simp, by rw [h6], ?_⟩
    rw [h8]
    simp [Function.update_same]
  | succ n ih =>
    intro k a mr lastErr tr hmr
    have ha : a < mr := by omega
    obtain ⟨tr', heq, hsl, hf, le, hstore, hstatus, hcache⟩ :=
      runLoop_retry_step rid opts logUrl hdrs
        (fun _ => .resp 503 stText rhs rbody) (n + 1) k a mr lastErr tr
        503 stText rhs rbody rfl (by decide) ha
    rw [heq]
    obtain ⟨r, h1, h2, h3, h4, h5, h6⟩ :=
      ih (k + 1) (a + 1) mr lastErr tr' (by omega)
    refine ⟨r, h1, h2, h3, ?_, ?_, h6⟩
    · rw [h4, hstore]
      simp
      omega
    · rw [h5, hf]
      omega

/-- Claim C3, counterexample: one logical `apiRequest` invocation with
`retries = 1` against an always-503 endpoint persists two log entries —
`logApiCall` runs on every attempt that received a response (before the
retry check), not once per invocation. -/
theorem C3_counterexample :
    (apiRequestModel sampleCfg "r1" { sampleOpts with retries := some 1 }
      (.got (some "tok")) (fun _ => .resp 503 "Service Unavailable" [] none)
      2 (fun _ => none) []).1.store.length = 2 ∧ ¬ (2 : Nat) = 1 := by
  exact ⟨by rfl, by decide⟩

/-- Claim C3 as amended: `apiRequest` persists one LogEntry per *attempt*
that produced an HTTP response, plus exactly one for each no-response
terminal outcome (auth failure, auth exception, CORS/network failure);
so a non-retried invocation persists exactly one entry, while an
invocation whose retries were exhausted by 503s persists `retries + 1`
entries; the feature-area latest-call cache is updated alongside every
append and ends on the final entry. -/
theorem C3_per_attempt_logging :
    (∀ (cfg : ApiConfig) (rid : String) (opts : ReqOptions)
      (env : Nat → FetchOutcome) (fuel : Nat)
      (c0 : String → Option LogEntry) (s0 : List LogEntry)
      (tok : Option String), opts.skipAuth = false → tokenFalsy tok = true →
      ∃ r, (apiRequestModel cfg rid opts (.got tok) env fuel c0 s0).2
          = some r ∧
        (apiRequestModel cfg rid opts (.got tok) env fuel c0 s0).1.store
          = s0 ++ [redactEntry r.logEntry] ∧
        (apiRequestModel cfg rid opts (.got tok) env fuel c0 s0).1.cache
            opts.featureArea = some r.logEntry) ∧
    (∀ (cfg : ApiConfig) (rid : String) (opts : ReqOptions)
      (env : Nat → FetchOutcome) (fuel : Nat)
      (c0 : String → Option LogEntry) (s0 : List LogEntry) (msg : String),
      opts.skipAuth = false →
      ∃ r, (apiRequestModel cfg rid opts (.threw msg) env fuel c0 s0).2
          = some r ∧
        (apiRequestModel cfg rid opts (.threw msg) env fuel c0 s0).1.store
          = s0 ++ [redactEntry r.logEntry] ∧
        (apiRequestModel cfg rid opts (.threw msg) env fuel c0 s0).1.cache
            opts.featureArea = some r.logEntry) ∧
    (∀ (rid : String) (opts : ReqOptions) (logUrl : String)
      (hdrs : List (String × String)) (env : Nat → FetchOutcome)
      (fuel k a mr : Nat) (lastErr : Option String) (tr : RunTrace)
      (st : Nat) (stText : String) (rhs : List (String × String))
      (rbody : Option BodyRep),
      env k = .resp st stText rhs rbody →
      (RETRYABLE_STATUS_CODES.contains st && decide (a < mr)) = false →
      a ≤ mr →
      ∃ r, (runLoop rid opts logUrl hdrs env (fuel + 1) k a mr lastErr
              tr).2 = some r ∧
        (runLoop rid opts logUrl hdrs env (fuel + 1) k a mr lastErr
            tr).1.store = tr.store ++ [redactEntry r.logEntry] ∧
        (runLoop rid opts logUrl hdrs env (fuel + 1) k a mr lastErr
            tr).1.cache opts.featureArea = some r.logEntry) ∧
    (∀ (rid : String) (opts : ReqOptions) (logUrl : String)
      (hdrs : List (String × String)) (env : Nat → FetchOutcome)
      (fuel k a mr : Nat) (lastErr : Option String) (tr : RunTrace),
      env k = .corsFail → a ≤ mr →
      ∃ r, (runLoop rid opts logUrl hdrs env (fuel + 1) k a mr lastErr
              tr).2 = some r ∧
        (runLoop rid opts logUrl hdrs env (fuel + 1) k a mr lastErr
            tr).1.store = tr.store ++ [redactEntry r.logEntry] ∧
        (runLoop rid opts logUrl hdrs env (fuel + 1) k a mr lastErr
            tr).1.cache opts.featureArea = some r.logEntry) ∧
    (∀ (cfg : ApiConfig) (rid : String) (opts : ReqOptions)
      (c0 : String → Option LogEntry) (s0 : List LogEntry) (t : String)
      (d : Nat) (stText : String) (rhs : List (String × String))
      (rbody : Option BodyRep),
      opts.skipAuth = false → ¬ t = "" → opts.retries = some d →
      ∃ r, (apiRequestModel cfg rid opts (.got (some t))
              (fun _ => .resp 503 stText rhs rbody) (d + 1) c0 s0).2
          = some r ∧
        r.status = 503 ∧ r.success = false ∧
        (apiRequestModel cfg rid opts (.got (some t))
            (fun _ => .resp 503 stText rhs rbody) (d + 1) c0 s0).1.store.length
          = s0.length + (d + 1) ∧
        (apiRequestModel cfg rid opts (.got (some t))
            (fun _ => .resp 503 stText rhs rbody) (d + 1) c0 s0).1.fetches
          = d + 1 ∧
        (apiRequestModel cfg rid opts (.got (some t))
            (fun _ => .resp 503 stText rhs rbody) (d + 1) c0 s0).1.cache
            opts.featureArea = some r.logEntry) := by
  refine ⟨?_, ?_, ?_, ?_, ?_⟩
  · intro cfg rid opts env fuel c0 s0 tok hskip htok
    obtain ⟨r, h1, _, _, _, _, _, _, h8, h9, _⟩ :=
      authFailedRun cfg rid opts env fuel c0 s0 tok hskip htok
    exact ⟨r, h1, h8, by rw [h9]; simp [Function.update_same]⟩
  · intro cfg rid opts env fuel c0 s0 msg hskip
    obtain ⟨r, h1, _, _, _, _, _, _, h8, h9, _⟩ :=
      authErrorRun cfg rid opts env fuel c0 s0 msg hskip
    exact ⟨r, h1, h8, by rw [h9]; simp [Function.update_same]⟩
  · intro rid opts logUrl hdrs env fuel k a mr lastErr tr st stText rhs
      rbody henv hcond ha
    obtain ⟨r, h1, _, _, _, _, _, h7, h8, _⟩ :=
      runLoop_return_step rid opts logUrl hdrs env fuel k a mr lastErr tr
        st stText rhs rbody henv hcond ha
    exact ⟨r, h1, h7, by rw [h8]; simp [Function.update_same]⟩
  · intro rid opts logUrl hdrs env fuel k a mr lastErr tr henv ha
    obtain ⟨r, h1, _, _, _, _, _, _, h8, h9⟩ :=
      runLoop_cors_step rid opts logUrl hdrs env fuel k a mr lastErr tr
        henv ha
    exact ⟨r, h1, h8, by rw [h9]; simp [Function.update_same]⟩
  · intro cfg rid opts c0 s0 t d stText rhs rbody hskip ht hret
    rw [apiRequest_auth_ok cfg rid opts
      (fun _ => .resp 503 stText rhs rbody) (d + 1) c0 s0 t hskip ht]
    have hmr : opts.retries.getD DEFAULT_MAX_RETRIES = 0 + d := by
      rw [hret]
      simp
    rw [hmr]
    obtain ⟨r, h1, h2, h3, h4, h5, h6⟩ :=
      runLoop_all503_counts rid opts
        (if opts.endpoint.startsWith "http" then opts.endpoint
         else getOriginalBaseUrl cfg opts.tokenType ++ opts.endpoint)
        (setHeader (buildBaseHeaders opts) "Authorization" ("Bearer " ++ t))
        stText rhs rbody d 0 0 (0 + d) none
        { store := s0, cache := c0, sleepsMs := [], fetches := 0 } rfl
    refine ⟨r, h1, h2, h3, by simpa using h4, by simpa using h5, h6⟩

/-- Witness for C3's amended theorem: a concrete run with `retries = 1`
against an always-503 endpoint makes 2 fetches and persists 2 entries. -/
theorem C3_per_attempt_logging_witness :
    (apiRequestModel sampleCfg "r1" { sampleOpts with retries := some 1 }
      (.got (some "tok")) (fun _ => .resp 503 "Service Unavailable" [] none)
      (1 + 1) (fun _ => none) []).1.store.length
      = List.length ([] : List LogEntry) + (1 + 1) ∧
    (apiRequestModel sampleCfg "r1" { sampleOpts with retries := some 1 }
      (.got (some "tok")) (fun _ => .resp 503 "Service Unavailable" [] none)
      (1 + 1) (fun _ => none) []).1.fetches = 1 + 1 := by
  obtain ⟨r, _, _, _, h4, h5, _⟩ := C3_per_attempt_logging.2.2.2.2 sampleCfg
    "r1" { sampleOpts with retries := some 1 } (fun _ => none) [] "tok" 1
    "Service Unavailable" [] none (by rfl) (by decide) (by rfl)
  exact ⟨h4, h5⟩

/-- Claim C10: when `apiRequest` attaches a bearer token, the LogEntry
returned in the `ApiResponse` and placed in the latest-call cache (read by
`getLatestCall`) carries the request headers unredacted — including the
raw `Authorization: Bearer <token>` header — while the copy persisted to
the durable store has that header redacted. -/
theorem C10_cache_unredacted (cfg : ApiConfig) (rid : String)
    (opts : ReqOptions) (env : Nat → FetchOutcome) (fuel : Nat)
    (c0 : String → Option LogEntry) (s0 : List LogEntry) (t : String)
    (st : Nat) (stText : String) (rhs : List (String × String))
    (rbody : Option BodyRep)
    (hskip : opts.skipAuth = false) (ht : ¬ t = "")
    (henv : env 0 = .resp st stText rhs rbody)
    (hcond : (RETRYABLE_STATUS_CODES.contains st
      && decide (0 < opts.retries.getD DEFAULT_MAX_RETRIES)) = false) :
    ∃ r, (apiRequestModel cfg rid opts (.got (some t)) env (fuel + 1)
            c0 s0).2 = some r ∧
      lookupHeader r.logEntry.requestHeaders "Authorization"
        = some ("Bearer " ++ t) ∧
      getLatestCall
        (apiRequestModel cfg rid opts (.got (some t)) env (fuel + 1)
          c0 s0).1.cache opts.featureArea = some r.logEntry ∧
      (apiRequestModel cfg rid opts (.got (some t)) env (fuel + 1)
          c0 s0).1.store = s0 ++ [redactEntry r.logEntry] ∧
      lookupHeader (redactEntry r.logEntry).requestHeaders "Authorization"
        = some REDACTED := by
  rw [apiRequest_auth_ok cfg rid opts env (fuel + 1) c0 s0 t hskip ht]
  obtain ⟨r, h1, _, _, _, _, _, h7, h8, _, h10⟩ :=
    runLoop_return_step rid opts
      (if opts.endpoint.startsWith "http" then opts.endpoint
       else getOriginalBaseUrl cfg opts.tokenType ++ opts.endpoint)
      (setHeader (buildBaseHeaders opts) "Authorization" ("Bearer " ++ t))
      env fuel 0 0 (opts.retries.getD DEFAULT_MAX_RETRIES) none
      { store := s0, cache := c0, sleepsMs := [], fetches := 0 }
      st stText rhs rbody henv hcond (by omega)
  refine ⟨r, h1, ?_, ?_, by simpa using h7, ?_⟩
  · rw [h10]
    exact lookupHeader_setHeader _ _ _
  · unfold getLatestCall
    rw [h8]
    simp [Function.update_same]
  · have hre : (redactEntry r.logEntry).requestHeaders
        = maskHeaders r.logEntry.requestHeaders := rfl
    rw [hre, h10, lookupHeader_maskHeaders, lookupHeader_setHeader]
    have hauth : strLower "Authorization" ∈ SENSITIVE_HEADERS := by decide
    simp [hauth]

/-- Witness for C10: a concrete 200 run returns the raw bearer in its
log-entry headers while the persisted copy carries the marker. -/
theorem C10_cache_unredacted_witness :
    ((apiRequestModel sampleCfg "r1" sampleOpts (.got (some "tok"))
        (fun _ => .resp 200 "OK" [] none) (0 + 1) (fun _ => none) []).2.map
      fun r => lookupHeader r.logEntry.requestHeaders "Authorization")
      = some (some ("Bearer " ++ "tok")) ∧
    ((apiRequestModel sampleCfg "r1" sampleOpts (.got (some "tok"))
        (fun _ => .resp 200 "OK" [] none) (0 + 1) (fun _ => none) []).2.map
      fun r =>
        lookupHeader (redactEntry r.logEntry).requestHeaders "Authorization")
      = some (some REDACTED) := by
  obtain ⟨r, h1, h2, _, _, h5⟩ := C10_cache_unredacted sampleCfg "r1"
    sampleOpts (fun _ => .resp 200 "OK" [] none) 0 (fun _ => none) [] "tok"
    200 "OK" [] none (by rfl) (by decide) rfl (by decide)
  rw [h1]
  exact ⟨by simp [h2], by simp [h5]⟩

/-- Claim C8, counterexample: in the body
`{"password": "abc", "note": "abc"}` the denylisted field `password` has
value `"abc"`, yet the serialized redacted output still contains the
string `abc` (it also occurs under the non-denylisted key `note`) — the
original value string is not absent from the serialized output. -/
theorem C8_counterexample :
    ("password", Json.str "abc") ∈
      subEntries (Json.obj [("password", Json.str "abc"),
                            ("note", Json.str "abc")]) ∧
    SENSITIVE_FIELDS.contains "password" = true ∧
    strOccurs "abc"
      (serializeJson (maskObject (Json.obj [("password", Json.str "abc"),
                                            ("note", Json.str "abc")])))
      = true := by
  refine ⟨?_, by decide, by decide⟩
  simp [subEntries, subEntriesL]

/-- Claim C8 as amended: for every JSON body (an object or array) and
denylisted field name occurring as a key at any depth, the redacted output
carries the marker in place of that field's value; and the field's
original value string is absent from the redacted output's string values
provided it does not also occur as the value of a non-denylisted key (and
is not the marker itself). -/
theorem C8_redaction_completeness (j : Json) (v : String)
    (hnstr : ∀ s, j ≠ .str s)
    (hv : ∀ k w, (k, w) ∈ subEntries j → w = .str v → sensitiveKey k = true)
    (hnm : v ≠ REDACTED) :
    (∀ k w, (k, w) ∈ subEntries (maskObject j) →
      SENSITIVE_FIELDS.contains k = true → w = .str REDACTED) ∧
    v ∉ strValues (maskObject j) := by
  constructor
  · intro k w hmem hf
    refine maskObject_sens_marked j k w hmem ?_
    have : k ∈ SENSITIVE_FIELDS := by simpa using hf
    simp [sensitiveKey, this]
  · intro hmem
    cases j with
    | obj kvs =>
      have hmem2 : v ∈ strValuesL (maskList kvs) := by
        simpa [maskObject, strValues] using hmem
      rcases maskList_strValues kvs v hmem2 with h | ⟨k2, hm, hk2⟩
      · exact hnm h
      · have := hv k2 (Json.str v) (by simpa [subEntries] using hm) rfl
        rw [this] at hk2
        cases hk2
    | arr l =>
      have hmem2 : v ∈ strValuesL (maskArr 0 l) := by
        simpa [maskObject, strValues] using hmem
      rcases maskArr_strValues 0 l v hmem2 with h | ⟨k2, hm, hk2⟩
      · exact hnm h
      · have := hv k2 (Json.str v) (by simpa [subEntries] using hm) rfl
        rw [this] at hk2
        cases hk2
    | str s => exact hnstr s rfl
    | num n => simp [maskObject, strValues, strValuesL] at hmem
    | bool b => simp [maskObject, strValues, strValuesL] at hmem
    | null => simp [maskObject, strValues, strValuesL] at hmem

/-- Witness for C8's amended theorem: for
`{"password": "hunter2", "info": {"token": "hunter2"}}`, every denylisted
key of the redacted output holds the marker and `hunter2` is gone from the
output's string values. -/
theorem C8_redaction_completeness_witness :
    (∀ k w,
      (k, w) ∈ subEntries (maskObject
        (Json.obj [("password", Json.str "hunter2"),
                    ("info", Json.obj [("token", Json.str "hunter2")])])) →
      SENSITIVE_FIELDS.contains k = true → w = .str REDACTED) ∧
    "hunter2" ∉ strValues (maskObject
      (Json.obj [("password", Json.str "hunter2"),
                  ("info", Json.obj [("token", Json.str "hunter2")])])) := by
  apply C8_redaction_completeness
  · intro s h
    cases h
  · intro k w hmem hw
    simp [subEntries, subEntriesL] at hmem
    rcases hmem with ⟨hk, hw2⟩ | ⟨hk, hw2⟩ | ⟨hk, hw2⟩ <;> subst hk <;>
      first
        | decide
        | (rw [hw] at hw2; cases hw2)
  · decide

/-- Claim C1: `logApiCall` persists exactly the redacted copy of the
entry it is given — the store's single write path appends
`redactEntry e`, in which every sensitive request header (case-insensitive)
carries the marker and every denylisted field of a JSON request or
response body carries the marker (response-body truncation is applied
after redaction). -/
theorem C1_log_redaction (e : LogEntry) (store : List LogEntry) :
    logApiCall e store = store ++ [redactEntry e] ∧
    (∀ k v2, (k, v2) ∈ (redactEntry e).requestHeaders →
      SENSITIVE_HEADERS.contains (strLower k) = true → v2 = REDACTED) ∧
    (∀ j, e.requestBody = some (.jsonVal j) →
      (redactEntry e).requestBody = some (.jsonVal (maskObject j)) ∧
      ∀ k w, (k, w) ∈ subEntries (maskObject j) → sensitiveKey k = true →
        w = .str REDACTED) ∧
    (∀ j, e.responseBody = some (.jsonVal j) →
      (redactEntry e).responseBody
        = some (truncBody (.jsonVal (maskObject j)) MAX_BODY_SIZE) ∧
      ∀ k w, (k, w) ∈ subEntries (maskObject j) → sensitiveKey k = true →
        w = .str REDACTED) := by
  refine ⟨rfl, ?_, ?_, ?_⟩
  · intro k v2 hmem hc
    have hmem2 : (k, v2) ∈ maskHeaders e.requestHeaders := hmem
    simp only [maskHeaders, List.mem_map] at hmem2
    obtain ⟨kv, _, heq⟩ := hmem2
    rw [Prod.mk.injEq] at heq
    obtain ⟨h1, h2⟩ := heq
    subst h1
    rw [← h2]
    have hcm : strLower kv.1 ∈ SENSITIVE_HEADERS := by simpa using hc
    simp [hcm]
  · intro j hj
    refine ⟨?_, maskObject_sens_marked j⟩
    simp [redactEntry, hj, bodyFalsy, maskBody]
  · intro j hj
    refine ⟨?_, maskObject_sens_marked j⟩
    simp [redactEntry, hj, bodyFalsy, maskBody]

/-- Shared fixture: a concrete unredacted log entry. -/
def sampleEntry : LogEntry :=
  { requestId := "w1", timestamp := "", method := "POST"
    url := "https://api.example/x", status := 200, statusText := "OK"
    durationMs := 0
    requestHeaders := [("Authorization", "Bearer abc")]
    requestBody := some (.jsonVal (Json.obj [("password", Json.str "pw")]))
    responseHeaders := [], responseBody := none, tenantId := none
    featureArea := "auth", error := none }

/-- Witness for C1: persisting the concrete entry appends its redacted
copy, whose request body is the masked body. -/
theorem C1_log_redaction_witness :
    logApiCall sampleEntry [] = [] ++ [redactEntry sampleEntry] ∧
    (redactEntry sampleEntry).requestBody
      = some (.jsonVal (maskObject (Json.obj [("password", Json.str "pw")])))
    := by
  have h := C1_log_redaction sampleEntry []
  exact ⟨h.1, (h.2.2.1 (Json.obj [("password", Json.str "pw")]) rfl).1⟩
